import Mathlib

/-!
# Verification of the antenna-graph engine (TP_EDA_Fase2)

Shallow embedding of `src/grafo.c`, `src/mapa.c` and the data model of
`include/grafo.h`.

Modelling conventions:
* The C linked list of heap-allocated `Vertice` nodes is embedded as parallel
  lists indexed by *insertion id* (id 0 = first vertex ever added).  A C
  pointer to a vertex is modelled by its id; the C `NULL` pointer by `none`
  of an `Option Nat`.  Since `adicionar_vertice` prepends at the list head,
  the C head-to-tail traversal order is the id order `n-1, n-2, ..., 0`
  (`ordemVertices`).
* The mutable per-vertex fields `visitado` and `arestas` of `struct Vertice`
  are kept in the `Grafo` record as lists parallel to `vertices`; updating
  them models the in-place mutation of the C structs.
* `malloc` failure paths (return codes `-3`/`-4` etc.) are not modelled:
  allocation always succeeds in the embedding.
* The C `float` arithmetic of `calcular_intersecao` is modelled by exact
  rational arithmetic (the specification, §4.4, prescribes real-number
  division), and the C float-to-int conversion by truncation toward zero.
  Properties that depend only on the integer `denom` test or on the branch
  structure of the function are unaffected by this choice; properties that
  depend on how intermediate `float` results round (such as bit-exact
  agreement of the truncated coordinates across differently associated
  pipelines) are properties of this exact model, not of the compiled code,
  whose results further depend on the implementation-defined float
  evaluation precision (`FLT_EVAL_METHOD`).
* Recursive C functions and `while` loops are embedded with an explicit fuel
  parameter; the top-level entry points supply fuel `num vertices + 1`,
  which the lemmas below show is never exhausted on well-formed graphs.
-/

namespace TPEDA

/-- The immutable data of a `struct Vertice` (grafo.h): frequency symbol and
integer grid position.  The mutable fields `visitado` and `arestas` live in
`Grafo` as per-vertex parallel lists. -/
structure Vertice where
  frequencia : Char
  x : Int
  y : Int
deriving DecidableEq, Repr

/-- The graph of `grafo.h`: the C prepend-list of vertices, embedded as lists
indexed by insertion id.  `arestas` holds each vertex's adjacency list
(head = most recently added edge, matching the prepend in
`adicionar_aresta`); `visitado` holds each vertex's transient marker. -/
structure Grafo where
  vertices : List Vertice
  arestas : List (List Nat)
  visitado : List Bool
  num_vertices : Int
deriving DecidableEq, Repr

/-- Default vertex used by total lookups (never observable on valid ids). -/
def verticePadrao : Vertice := ⟨' ', 0, 0⟩

/-- Vertex data of id `i` (the dereference `*v` in C). -/
def verticeDe (g : Grafo) (i : Nat) : Vertice :=
  g.vertices.getD i verticePadrao

/-- `v->frequencia`. -/
def freqDe (g : Grafo) (i : Nat) : Char :=
  (verticeDe g i).frequencia

/-- `v->arestas` as the list of destination ids. -/
def arestasDe (g : Grafo) (i : Nat) : List Nat :=
  g.arestas.getD i []

/-- `v->visitado`. -/
def visitadoDe (g : Grafo) (i : Nat) : Bool :=
  g.visitado.getD i false

/-- The head-to-tail traversal order of the C vertex list: ids from the most
recently added (`n-1`) down to the first added (`0`). -/
def ordemVertices (g : Grafo) : List Nat :=
  (List.range g.vertices.length).reverse

/-- `criar_grafo` (grafo.c): empty vertex list, count 0. -/
def criar_grafo : Grafo :=
  { vertices := [], arestas := [], visitado := [], num_vertices := 0 }

/-- `adicionar_vertice` (grafo.c): allocates a fresh vertex with
`visitado = false` and no edges and prepends it at the head of the C vertex
list; in id-indexed form that is an append at id `n`.  Returns the pointer to
the new vertex (its id) together with the updated graph.  Allocation is
modelled as always succeeding. -/
def adicionar_vertice (g : Grafo) (freq : Char) (x y : Int) : Nat × Grafo :=
  (g.vertices.length,
    { vertices := g.vertices ++ [⟨freq, x, y⟩]
      arestas := g.arestas ++ [[]]
      visitado := g.visitado ++ [false]
      num_vertices := g.num_vertices + 1 })

/-- `adicionar_aresta` (grafo.c): `-1` on a `NULL` endpoint, `-2` on a
frequency mismatch, `0` if the edge already exists (no structural change),
otherwise prepend `destino` to `origem`'s adjacency and `origem` to
`destino`'s adjacency and return `0`.  The second prepend reads the list
state left by the first one, exactly as the C pointer updates do. -/
def adicionar_aresta (g : Grafo) (origem destino : Option Nat) : Int × Grafo :=
  match origem, destino with
  | none, _ => (-1, g)
  | some _, none => (-1, g)
  | some o, some d =>
    if freqDe g o ≠ freqDe g d then (-2, g)
    else if d ∈ arestasDe g o then (0, g)
    else
      let a1 := g.arestas.set o (d :: g.arestas.getD o [])
      let a2 := a1.set d (o :: a1.getD d [])
      (0, { g with arestas := a2 })

/-- `encontrar_vertice` (grafo.c): scan the vertex list from the head (most
recently added first) and return the first vertex whose coordinates match. -/
def encontrar_vertice (g : Grafo) (x y : Int) : Option Nat :=
  (ordemVertices g).find? (fun i => (verticeDe g i).x == x && (verticeDe g i).y == y)

/-- `reiniciar_visitados` (grafo.c): set every vertex's marker to `false`. -/
def reiniciar_visitados (g : Grafo) : Grafo :=
  { g with visitado := g.visitado.map (fun _ => false) }

/-! ## Traversal (DFS and BFS) -/

/-- `procura_profundidade_rec` (grafo.c): if the current vertex is visited,
return; otherwise emit it, mark it, and recurse into every neighbour in
adjacency order.  The emitted visitation sequence (the C `printf` output) is
the first component; the marker state is threaded as the second.  `fuel`
bounds the recursion depth; the entry point supplies `n + 1`, which is never
exhausted on well-formed graphs (shown below). -/
def procura_profundidade_rec (g : Grafo) : Nat → Nat → List Bool → List Nat × List Bool
  | 0, _, visitado => ([], visitado)
  | fuel+1, v, visitado =>
    if visitado.getD v false then ([], visitado)
    else
      (arestasDe g v).foldl
        (fun acc a =>
          let r := procura_profundidade_rec g fuel a acc.2
          (acc.1 ++ r.1, r.2))
        ([v], visitado.set v true)

/-- The body of the neighbour loop of `procura_profundidade_rec`, named for
the proofs below. -/
def passoProfundidade (g : Grafo) (fuel : Nat) (acc : List Nat × List Bool)
    (a : Nat) : List Nat × List Bool :=
  let r := procura_profundidade_rec g fuel a acc.2
  (acc.1 ++ r.1, r.2)

/-- `procura_profundidade` (grafo.c): `NULL` start yields `-1` (modelled as
`none`); otherwise reset all markers and run the recursive DFS. -/
def procura_profundidade (g : Grafo) (inicio : Option Nat) :
    Option (List Nat) × Grafo :=
  match inicio with
  | none => (none, g)
  | some v =>
    let g1 := reiniciar_visitados g
    let r := procura_profundidade_rec g1 (g1.vertices.length + 1) v g1.visitado
    (some r.1, { g1 with visitado := r.2 })

/-- The body of the neighbour loop of `procura_largura` (grafo.c): an
unvisited neighbour is marked at enqueue time and appended at the queue
tail; a visited one is skipped. -/
def passoVizinho (acc : List Nat × List Bool) (a : Nat) : List Nat × List Bool :=
  if acc.2.getD a false then acc
  else (acc.1 ++ [a], acc.2.set a true)

/-- One dequeue step's neighbour pass of `procura_largura` (grafo.c). -/
def procura_largura_vizinhos (g : Grafo) (atual : Nat) (fila : List Nat)
    (visitado : List Bool) : List Nat × List Bool :=
  (arestasDe g atual).foldl passoVizinho (fila, visitado)

/-- The `while (inicio_fila != NULL)` loop of `procura_largura` (grafo.c):
dequeue the head, emit it, enqueue its unvisited neighbours (marking them),
and continue.  `fuel` bounds the number of iterations; the entry point
supplies `n + 1`, never exhausted on well-formed graphs (shown below). -/
def procura_largura_loop (g : Grafo) : Nat → List Nat → List Bool → List Nat × List Bool
  | 0, _, visitado => ([], visitado)
  | _+1, [], visitado => ([], visitado)
  | fuel+1, atual :: resto, visitado =>
    let passo := procura_largura_vizinhos g atual resto visitado
    let r := procura_largura_loop g fuel passo.1 passo.2
    (atual :: r.1, r.2)

/-- `procura_largura` (grafo.c): `NULL` start yields `-1` (modelled as
`none`); otherwise reset all markers, enqueue the start vertex marking it,
and run the queue loop. -/
def procura_largura (g : Grafo) (inicio : Option Nat) :
    Option (List Nat) × Grafo :=
  match inicio with
  | none => (none, g)
  | some v =>
    let g1 := reiniciar_visitados g
    let r := procura_largura_loop g1 (g1.vertices.length + 1) [v] (g1.visitado.set v true)
    (some r.1, { g1 with visitado := r.2 })

/-! ## Exhaustive path enumeration -/

/-- `encontrar_caminhos_rec` (grafo.c): the current (reversed) path is the
C `CaminhoNode` list `caminho`; on reaching the destination, the path is
printed source-first, modelled by emitting `(atual :: caminho).reverse`.
Otherwise mark the current vertex, recurse into every unvisited neighbour,
and unmark it (backtracking).  The global `contador_caminhos` equals the
length of the emitted path list (it is incremented exactly once per printed
path). -/
def encontrar_caminhos_rec (g : Grafo) :
    Nat → Nat → Nat → List Bool → List Nat → List (List Nat) × List Bool
  | 0, _, _, visitado, _ => ([], visitado)
  | fuel+1, atual, destino, visitado, caminho =>
    if atual = destino then
      ([(atual :: caminho).reverse], visitado)
    else
      let r :=
        (arestasDe g atual).foldl
          (fun acc a =>
            if acc.2.getD a false then acc
            else
              let r2 := encontrar_caminhos_rec g fuel a destino acc.2 (atual :: caminho)
              (acc.1 ++ r2.1, r2.2))
          ([], visitado.set atual true)
      (r.1, r.2.set atual false)

/-- The body of the neighbour loop of `encontrar_caminhos_rec`, named for
the proofs below. -/
def passoCaminhos (g : Grafo) (fuel destino : Nat) (caminho : List Nat)
    (acc : List (List Nat) × List Bool) (a : Nat) : List (List Nat) × List Bool :=
  if acc.2.getD a false then acc
  else
    let r2 := encontrar_caminhos_rec g fuel a destino acc.2 caminho
    (acc.1 ++ r2.1, r2.2)

/-- Outcome of `encontrar_caminhos` (grafo.c).  The C function returns `-2`
when an endpoint pointer is `NULL` and prints which endpoint is missing
(`antenaInexistente` records the two flags), `-3` with a message when the
frequencies differ, and otherwise `0` after printing each found path and the
total count (`ok` carries the printed paths; the printed count is their
number). -/
inductive ResultadoCaminhos where
  | antenaInexistente (origemFalta destinoFalta : Bool) : ResultadoCaminhos
  | frequenciasDiferentes : ResultadoCaminhos
  | ok (caminhos : List (List Nat)) : ResultadoCaminhos
deriving DecidableEq, Repr

/-- `encontrar_caminhos` (grafo.c): check the endpoints for `NULL` (reporting
which is missing), then compare frequencies, and only then reset the markers
and run the backtracking search.  Returns the outcome together with the
graph state after the call (untouched on the failure paths). -/
def encontrar_caminhos (g : Grafo) (origem destino : Option Nat) :
    ResultadoCaminhos × Grafo :=
  match origem, destino with
  | none, none => (.antenaInexistente true true, g)
  | none, some _ => (.antenaInexistente true false, g)
  | some _, none => (.antenaInexistente false true, g)
  | some o, some d =>
    if freqDe g o ≠ freqDe g d then (.frequenciasDiferentes, g)
    else
      let g1 := reiniciar_visitados g
      let r := encontrar_caminhos_rec g1 (g1.vertices.length + 1) o d g1.visitado []
      (.ok r.1, { g1 with visitado := r.2 })

/-! ## Geometry: segment intersection -/

/-- Truncation toward zero of a rational, the behaviour of the C conversion
from `float` to `int`. -/
def truncar (q : ℚ) : Int := Int.tdiv q.num (q.den : Int)

/-- The denominator computed by `calcular_intersecao` (grafo.c). -/
def denomDe (p1 p2 p3 p4 : Vertice) : Int :=
  (p4.y - p3.y) * (p2.x - p1.x) - (p4.x - p3.x) * (p2.y - p1.y)

/-- The local `float ua` of `calcular_intersecao` (grafo.c), as an exact
rational. -/
def uaDe (p1 p2 p3 p4 : Vertice) : ℚ :=
  (((p4.x - p3.x) * (p1.y - p3.y) - (p4.y - p3.y) * (p1.x - p3.x) : Int) : ℚ)
    / ((denomDe p1 p2 p3 p4 : Int) : ℚ)

/-- The local `float ub` of `calcular_intersecao` (grafo.c), as an exact
rational. -/
def ubDe (p1 p2 p3 p4 : Vertice) : ℚ :=
  (((p2.x - p1.x) * (p1.y - p3.y) - (p2.y - p1.y) * (p1.x - p3.x) : Int) : ℚ)
    / ((denomDe p1 p2 p3 p4 : Int) : ℚ)

/-- `calcular_intersecao` (grafo.c): zero denominator (parallel or collinear
lines) reports no intersection; otherwise the parameters `ua`, `ub` are
computed by real-number division (the C `float` arithmetic is modelled by
exact rationals), the segment-range check `ua, ub ∈ [0,1]` is applied, and
the intersection point is truncated toward zero to integers.  The C output
triple `(bool, *x, *y)` is modelled as an `Option (Int × Int)`. -/
def calcular_intersecao (p1 p2 p3 p4 : Vertice) : Option (Int × Int) :=
  if denomDe p1 p2 p3 p4 = 0 then none
  else
    if uaDe p1 p2 p3 p4 < 0 ∨ 1 < uaDe p1 p2 p3 p4 ∨
        ubDe p1 p2 p3 p4 < 0 ∨ 1 < ubDe p1 p2 p3 p4 then none
    else
      some (truncar ((p1.x : ℚ) + uaDe p1 p2 p3 p4 * ((p2.x : ℚ) - (p1.x : ℚ))),
            truncar ((p1.y : ℚ) + uaDe p1 p2 p3 p4 * ((p2.y : ℚ) - (p1.y : ℚ))))

/-! ## Intersections between two frequencies -/

/-- The undirected edges of one frequency class as enumerated by
`intersecoes_frequencias` (grafo.c): walk the vertex list, and for each
vertex of the requested frequency walk its adjacency, keeping a pair once
via the `a1 < a2` guard.  The C guard compares malloc addresses; since the
vertices are allocated in insertion order it is modelled as comparison of
insertion ids (the theorems below do not depend on which total order is
used). -/
def paresFrequencia (g : Grafo) (freq : Char) : List (Nat × Nat) :=
  (ordemVertices g).flatMap (fun i =>
    if freqDe g i = freq then
      (arestasDe g i).filterMap (fun j => if i < j then some (i, j) else none)
    else [])

/-- The pairs of edges examined by the nested loops of
`intersecoes_frequencias` (grafo.c), in loop order: for each `freqA` edge,
every `freqB` edge. -/
def paresCandidatos (g : Grafo) (freqA freqB : Char) :
    List ((Nat × Nat) × (Nat × Nat)) :=
  (paresFrequencia g freqA).flatMap (fun pa =>
    (paresFrequencia g freqB).map (fun pb => (pa, pb)))

/-- The `calcular_intersecao` call on the four endpoints of a candidate
edge pair. -/
def intersecaoDe (g : Grafo) (c : (Nat × Nat) × (Nat × Nat)) : Option (Int × Int) :=
  calcular_intersecao (verticeDe g c.1.1) (verticeDe g c.1.2)
    (verticeDe g c.2.1) (verticeDe g c.2.2)

/-- `intersecoes_frequencias` (grafo.c): for every candidate edge pair that
intersects, insert the intersection coordinate into the running list unless
an equal coordinate is already present; the returned count is incremented
exactly once per insertion, so it equals the final list length. -/
def intersecoes_frequencias (g : Grafo) (freqA freqB : Char) : Nat :=
  ((paresCandidatos g freqA freqB).foldl
    (fun acc c =>
      match intersecaoDe g c with
      | none => acc
      | some p => if p ∈ acc then acc else p :: acc)
    []).length

/-- All intersection coordinates produced by the candidate pairs, with
multiplicity, in loop order (specification-side list used to state the
deduplication property). -/
def coordsIntersecao (g : Grafo) (freqA freqB : Char) : List (Int × Int) :=
  (paresCandidatos g freqA freqB).filterMap (intersecaoDe g)

/-! ## Map rendering (mapa.c) -/

/-- Write character `c` at cell `(x, y)` of a grid.  The C grid is a linked
list of rows with in-place writes; it is embedded as a function from
coordinates to the stored character. -/
def atualizar (grelha : Int → Int → Char) (x y : Int) (c : Char) :
    Int → Int → Char :=
  fun a b => if a = x ∧ b = y then c else grelha a b

/-- The freshly allocated map of `imprimir_mapa` (mapa.c): every cell `'.'`. -/
def grelhaVazia : Int → Int → Char := fun _ _ => '.'

/-- One antenna write of `imprimir_mapa` (mapa.c):
`linha_atual->dados[v->x] = v->frequencia`. -/
def passoAntena (g : Grafo) (grelha : Int → Int → Char) (i : Nat) :
    Int → Int → Char :=
  atualizar grelha (verticeDe g i).x (verticeDe g i).y (freqDe g i)

/-- The antenna-marking pass of `imprimir_mapa` (mapa.c): walk the vertex
list head-first and write each antenna's frequency character at its cell. -/
def marcar_antenas (g : Grafo) (grelha : Int → Int → Char) : Int → Int → Char :=
  (ordemVertices g).foldl (passoAntena g) grelha

/-- The alignment test of `imprimir_mapa` (mapa.c) on `delta = (dx, dy)`. -/
def alinhado (dx dy : Int) : Prop :=
  dx = 0 ∨ dy = 0 ∨ dx.natAbs = dy.natAbs ∨
    dx.natAbs = 2 * dy.natAbs ∨ 2 * dx.natAbs = dy.natAbs ∨
    dx.natAbs = 3 * dy.natAbs ∨ 3 * dx.natAbs = dy.natAbs

instance (dx dy : Int) : Decidable (alinhado dx dy) := by
  unfold alinhado; infer_instance

/-- The two projected interference points of an aligned pair, in the order
computed by `imprimir_mapa` (mapa.c): `(x1, y1) = v - delta` and
`(x2, y2) = u + delta` with `delta = u - v`. -/
def pontosNefastos (v u : Vertice) : (Int × Int) × (Int × Int) :=
  ((v.x - (u.x - v.x), v.y - (u.y - v.y)),
   (u.x + (u.x - v.x), u.y + (u.y - v.y)))

/-- Mark one projected point (mapa.c): write `'#'` only when the point lies
within the grid bounds and the cell currently holds `'.'` (no antenna and
no previous mark). -/
def marcar_se_livre (linhas colunas : Int) (grelha : Int → Int → Char)
    (p : Int × Int) : Int → Int → Char :=
  if 0 ≤ p.1 ∧ p.1 < colunas ∧ 0 ≤ p.2 ∧ p.2 < linhas ∧ grelha p.1 p.2 = '.' then
    atualizar grelha p.1 p.2 '#'
  else grelha

/-- The ordered vertex pairs examined by the two nested vertex-list loops of
`imprimir_mapa` (mapa.c), in loop order (`.1` is the outer vertex `v`,
`.2` the inner vertex `u`). -/
def paresOrdenados (g : Grafo) : List (Nat × Nat) :=
  (ordemVertices g).flatMap (fun i => (ordemVertices g).map (fun j => (i, j)))

/-- One iteration of the interference pass of `imprimir_mapa` (mapa.c): for
a pair of distinct same-frequency vertices whose delta is aligned, mark the
two projected points in order. -/
def passoNefasto (g : Grafo) (linhas colunas : Int) (grelha : Int → Int → Char)
    (ij : Nat × Nat) : Int → Int → Char :=
  if ij.1 ≠ ij.2 ∧ freqDe g ij.1 = freqDe g ij.2 ∧
      alinhado ((verticeDe g ij.2).x - (verticeDe g ij.1).x)
        ((verticeDe g ij.2).y - (verticeDe g ij.1).y) then
    let pts := pontosNefastos (verticeDe g ij.1) (verticeDe g ij.2)
    marcar_se_livre linhas colunas (marcar_se_livre linhas colunas grelha pts.1) pts.2
  else grelha

/-- The interference-marking pass of `imprimir_mapa` (mapa.c). -/
def marcar_nefastos (g : Grafo) (linhas colunas : Int)
    (grelha : Int → Int → Char) : Int → Int → Char :=
  (paresOrdenados g).foldl (passoNefasto g linhas colunas) grelha

/-- `imprimir_mapa` (mapa.c), up to the final `printf` pass: initialise every
cell to `'.'`, mark the antennas, then mark the interference points.  The
printed text is the rendering of this grid function over the in-bounds
cells. -/
def imprimir_mapa (g : Grafo) (linhas colunas : Int) : Int → Int → Char :=
  marcar_nefastos g linhas colunas (marcar_antenas g grelhaVazia)

/-- The bounds test of `imprimir_mapa` (mapa.c):
`x >= 0 && x < colunas && y >= 0 && y < linhas`. -/
def dentroDe (linhas colunas : Int) (p : Int × Int) : Prop :=
  0 ≤ p.1 ∧ p.1 < colunas ∧ 0 ≤ p.2 ∧ p.2 < linhas

instance (linhas colunas : Int) (p : Int × Int) :
    Decidable (dentroDe linhas colunas p) := by
  unfold dentroDe; infer_instance

/-- The ordered pair `ij = (v, u)` projects an interference point onto cell
`p`: the two vertices are distinct, share a frequency, their delta is
aligned, and `p` is one of the two projected points. -/
def projetaPar (g : Grafo) (ij : Nat × Nat) (p : Int × Int) : Prop :=
  ij.1 ≠ ij.2 ∧ freqDe g ij.1 = freqDe g ij.2 ∧
  alinhado ((verticeDe g ij.2).x - (verticeDe g ij.1).x)
    ((verticeDe g ij.2).y - (verticeDe g ij.1).y) ∧
  ((pontosNefastos (verticeDe g ij.1) (verticeDe g ij.2)).1 = p ∨
    (pontosNefastos (verticeDe g ij.1) (verticeDe g ij.2)).2 = p)

instance (g : Grafo) (ij : Nat × Nat) (p : Int × Int) :
    Decidable (projetaPar g ij p) := by
  unfold projetaPar; infer_instance

/-! ## Reachability and well-formedness -/

/-- `v` is a direct neighbour of `u` in the graph. -/
def ArestaEm (g : Grafo) (u v : Nat) : Prop := v ∈ arestasDe g u

/-- Reachability along edges. -/
def Alcancavel (g : Grafo) : Nat → Nat → Prop := Relation.ReflTransGen (ArestaEm g)

/-- Well-formedness of the embedded graph: the parallel lists have the same
length and every adjacency entry is a valid vertex id (automatic for the C
heap structure, where edges hold pointers to allocated vertices). -/
def bemFormado (g : Grafo) : Prop :=
  g.arestas.length = g.vertices.length ∧
  g.visitado.length = g.vertices.length ∧
  ∀ l ∈ g.arestas, ∀ a ∈ l, a < g.vertices.length

instance (g : Grafo) : Decidable (bemFormado g) := by
  unfold bemFormado; infer_instance

/-! ## Concrete graphs used by the witnesses -/

/-- A well-formed sample graph: a chain `0 – 1 – 2` of frequency `A` plus an
isolated vertex `3` of frequency `B`. -/
def grafoExemplo : Grafo :=
  { vertices := [⟨'A', 0, 0⟩, ⟨'A', 1, 1⟩, ⟨'A', 2, 2⟩, ⟨'B', 5, 5⟩]
    arestas := [[1], [0, 2], [1], []]
    visitado := [false, false, false, false]
    num_vertices := 4 }

/-- The specification's interference example: two frequency-`A` antennas at
`(2,2)` and `(4,2)` on a map. -/
def grafoMapa : Grafo :=
  { vertices := [⟨'A', 2, 2⟩, ⟨'A', 4, 2⟩]
    arestas := [[], []]
    visitado := [false, false]
    num_vertices := 2 }

/-! ## Generic list lemmas -/

lemma getD_set_ne {α : Type} (l : List α) {i j : Nat} (a d : α) (h : i ≠ j) :
    (l.set i a).getD j d = l.getD j d := by
  simp [List.getD_eq_getElem?_getD, List.getElem?_set_ne h]

lemma getD_set_self {α : Type} (l : List α) {i : Nat} (a d : α) (h : i < l.length) :
    (l.set i a).getD i d = a := by
  simp [List.getD_eq_getElem?_getD, List.getElem?_set_self h]

lemma set_false_eq (l : List Bool) (i : Nat) (h : l.getD i false = false) :
    l.set i false = l := by
  induction l generalizing i with
  | nil => rfl
  | cons b t ih =>
    cases i with
    | zero => simp_all
    | succ i => simp_all

lemma count_true_set_true (l : List Bool) {i : Nat} (h1 : i < l.length)
    (h2 : l.getD i false = false) :
    (l.set i true).count true = l.count true + 1 := by
  induction l generalizing i with
  | nil => simp at h1
  | cons b t ih =>
    cases i with
    | zero =>
      have hb : b = false := by simpa using h2
      subst hb
      simp [List.count_cons]
    | succ i =>
      have h1' : i < t.length := by simpa using h1
      have h2' : t.getD i false = false := by simpa using h2
      simp [List.count_cons, ih h1' h2']
      omega

lemma eq_of_getD_eq (l₁ l₂ : List Bool) (hlen : l₁.length = l₂.length)
    (h : ∀ k, l₁.getD k false = l₂.getD k false) : l₁ = l₂ := by
  induction l₁ generalizing l₂ with
  | nil => cases l₂ with
    | nil => rfl
    | cons b t => simp at hlen
  | cons b t ih =>
    cases l₂ with
    | nil => simp at hlen
    | cons b2 t2 =>
      have hb : b = b2 := by simpa using h 0
      have ht : t = t2 := ih t2 (by simpa using hlen) (fun k => by simpa using h (k + 1))
      rw [hb, ht]

/-! ## C10: coincident vertices and most-recent-match lookup -/

/-- **C10**: vertex insertion never rejects coincident vertices — it always
adds a new vertex, growing the vertex list by one — and after the insertion
`encontrar_vertice` at the new vertex's coordinates returns precisely the
newly added vertex, because `adicionar_vertice` prepends at the head of the
vertex list and `encontrar_vertice` returns the first match scanning from
the head (the most recently added one). -/
theorem adicionar_vertice_e_encontrar_vertice (g : Grafo) (freq : Char) (x y : Int) :
    (adicionar_vertice g freq x y).2.vertices.length = g.vertices.length + 1 ∧
    encontrar_vertice (adicionar_vertice g freq x y).2 x y =
      some (adicionar_vertice g freq x y).1 := by
  refine ⟨by simp [adicionar_vertice], ?_⟩
  have hord : ordemVertices (adicionar_vertice g freq x y).2
      = g.vertices.length :: (List.range g.vertices.length).reverse := by
    simp [ordemVertices, adicionar_vertice, List.range_succ]
  have hv : verticeDe (adicionar_vertice g freq x y).2 g.vertices.length
      = ⟨freq, x, y⟩ := by
    simp [verticeDe, adicionar_vertice, List.getD_append_right]
  rw [encontrar_vertice, hord, List.find?_cons_of_pos _ (by simp [hv])]
  simp [adicionar_vertice]

/-! ## C4: edge insertion is idempotent -/

/-- `adicionar_aresta` on an already present edge is a success and a no-op. -/
lemma adicionar_aresta_de_membro (g : Grafo) (o d : Nat)
    (hf : freqDe g o = freqDe g d) (hmem : d ∈ arestasDe g o) :
    adicionar_aresta g (some o) (some d) = (0, g) := by
  simp [adicionar_aresta, hf, hmem]

/-- **C4**: for same-frequency vertices `o` and `d`, the first
`adicionar_aresta` call succeeds, and a second call on the resulting graph
is a no-op reporting success: it returns `0` and leaves the whole graph —
in particular both adjacency lists — unchanged. -/
theorem adicionar_aresta_idempotente (g : Grafo) (o d : Nat)
    (ho : o < g.arestas.length) (hf : freqDe g o = freqDe g d) :
    (adicionar_aresta g (some o) (some d)).1 = 0 ∧
    adicionar_aresta (adicionar_aresta g (some o) (some d)).2 (some o) (some d)
      = (0, (adicionar_aresta g (some o) (some d)).2) := by
  by_cases hmem : d ∈ arestasDe g o
  · rw [adicionar_aresta_de_membro g o d hf hmem]
    exact ⟨rfl, adicionar_aresta_de_membro g o d hf hmem⟩
  · have hmem2 : d ∈ ((g.arestas.set o (d :: g.arestas.getD o [])).set d
        (o :: (g.arestas.set o (d :: g.arestas.getD o [])).getD d [])).getD o [] := by
      by_cases hod : o = d
      · subst hod
        rw [getD_set_self _ _ _ (by simpa using ho)]
        exact List.mem_cons_self _ _
      · rw [getD_set_ne _ _ _ (Ne.symm hod), getD_set_self _ _ _ ho]
        exact List.mem_cons_self _ _
    have hg2v : (adicionar_aresta g (some o) (some d)).2.vertices = g.vertices := by
      simp [adicionar_aresta, hf, hmem]
    have hg2a : (adicionar_aresta g (some o) (some d)).2.arestas
        = (g.arestas.set o (d :: g.arestas.getD o [])).set d
          (o :: (g.arestas.set o (d :: g.arestas.getD o [])).getD d []) := by
      simp [adicionar_aresta, hf, hmem]
    have hfreq2 : freqDe (adicionar_aresta g (some o) (some d)).2 o
        = freqDe (adicionar_aresta g (some o) (some d)).2 d := by
      simp only [freqDe, verticeDe, hg2v]
      exact hf
    have hmem2' : d ∈ arestasDe (adicionar_aresta g (some o) (some d)).2 o := by
      simp only [arestasDe, hg2a]
      exact hmem2
    exact ⟨by simp [adicionar_aresta, hf, hmem],
      adicionar_aresta_de_membro _ o d hfreq2 hmem2'⟩

/-- Witness for C4 on the sample graph (vertices `0` and `2`, both of
frequency `A`, not yet connected). -/
theorem adicionar_aresta_idempotente_witness :
    0 < grafoExemplo.arestas.length ∧
    freqDe grafoExemplo 0 = freqDe grafoExemplo 2 ∧
    (adicionar_aresta grafoExemplo (some 0) (some 2)).1 = 0 ∧
    adicionar_aresta (adicionar_aresta grafoExemplo (some 0) (some 2)).2
        (some 0) (some 2)
      = (0, (adicionar_aresta grafoExemplo (some 0) (some 2)).2) :=
  ⟨by decide, by decide,
   (adicionar_aresta_idempotente grafoExemplo 0 2 (by decide) (by decide)).1,
   (adicionar_aresta_idempotente grafoExemplo 0 2 (by decide) (by decide)).2⟩

/-! ## C2: zero denominator always reports no intersection -/

/-- **C2**: whenever the denominator
`(p4.y−p3.y)(p2.x−p1.x) − (p4.x−p3.x)(p2.y−p1.y)` is zero — parallel or
collinear segments, including truly overlapping collinear ones —
`calcular_intersecao` reports no intersection. -/
theorem calcular_intersecao_denom_zero (p1 p2 p3 p4 : Vertice)
    (h : denomDe p1 p2 p3 p4 = 0) :
    calcular_intersecao p1 p2 p3 p4 = none := by
  simp [calcular_intersecao, h]

/-- Witness for C2 at two collinear, truly overlapping horizontal segments
`(0,0)–(2,0)` and `(1,0)–(3,0)`. -/
theorem calcular_intersecao_denom_zero_witness :
    denomDe ⟨'A', 0, 0⟩ ⟨'A', 2, 0⟩ ⟨'B', 1, 0⟩ ⟨'B', 3, 0⟩ = 0 ∧
    calcular_intersecao ⟨'A', 0, 0⟩ ⟨'A', 2, 0⟩ ⟨'B', 1, 0⟩ ⟨'B', 3, 0⟩ = none :=
  ⟨by decide, calcular_intersecao_denom_zero _ _ _ _ (by decide)⟩

/-! ## C3: symmetry under swapping the two segments -/

lemma denomDe_troca (p1 p2 p3 p4 : Vertice) :
    denomDe p3 p4 p1 p2 = -denomDe p1 p2 p3 p4 := by
  unfold denomDe; ring

lemma uaDe_troca (p1 p2 p3 p4 : Vertice) :
    uaDe p3 p4 p1 p2 = ubDe p1 p2 p3 p4 := by
  have h1 : ((p2.x - p1.x) * (p3.y - p1.y) - (p2.y - p1.y) * (p3.x - p1.x) : Int)
      = -((p2.x - p1.x) * (p1.y - p3.y) - (p2.y - p1.y) * (p1.x - p3.x)) := by ring
  unfold uaDe ubDe
  rw [h1, denomDe_troca]
  push_cast
  rw [neg_div_neg_eq]

lemma ubDe_troca (p1 p2 p3 p4 : Vertice) :
    ubDe p3 p4 p1 p2 = uaDe p1 p2 p3 p4 := by
  have h1 : ((p4.x - p3.x) * (p3.y - p1.y) - (p4.y - p3.y) * (p3.x - p1.x) : Int)
      = -((p4.x - p3.x) * (p1.y - p3.y) - (p4.y - p3.y) * (p1.x - p3.x)) := by ring
  unfold ubDe uaDe
  rw [h1, denomDe_troca]
  push_cast
  rw [neg_div_neg_eq]

/-- When the lines are not parallel, the intersection point computed from
the first segment's parametrisation coincides with the one computed from
the second segment's (`x` coordinate).  This is an identity of the exact
rational semantics; the two sides are different rounding pipelines in the
C `float` arithmetic. -/
lemma ponto_troca_x (p1 p2 p3 p4 : Vertice) (h : denomDe p1 p2 p3 p4 ≠ 0) :
    (p3.x : ℚ) + ubDe p1 p2 p3 p4 * ((p4.x : ℚ) - (p3.x : ℚ))
      = (p1.x : ℚ) + uaDe p1 p2 p3 p4 * ((p2.x : ℚ) - (p1.x : ℚ)) := by
  have hD : ((denomDe p1 p2 p3 p4 : Int) : ℚ) ≠ 0 := Int.cast_ne_zero.mpr h
  unfold uaDe ubDe at *
  unfold denomDe at *
  push_cast at hD ⊢
  field_simp
  ring

/-- `y`-coordinate version of `ponto_troca_x`. -/
lemma ponto_troca_y (p1 p2 p3 p4 : Vertice) (h : denomDe p1 p2 p3 p4 ≠ 0) :
    (p3.y : ℚ) + ubDe p1 p2 p3 p4 * ((p4.y : ℚ) - (p3.y : ℚ))
      = (p1.y : ℚ) + uaDe p1 p2 p3 p4 * ((p2.y : ℚ) - (p1.y : ℚ)) := by
  have hD : ((denomDe p1 p2 p3 p4 : Int) : ℚ) ≠ 0 := Int.cast_ne_zero.mpr h
  unfold uaDe ubDe at *
  unfold denomDe at *
  push_cast at hD ⊢
  field_simp
  ring

/-- Symmetry of the intersection under swapping the two segments, in the
exact real-number semantics that the specification (§4.4) prescribes for
this algorithm: the found-flag and the truncated coordinate pair agree.
The found-flag half is rounding-exact (the integer numerators and the
denominator negate exactly under the swap, and division of negated
operands is sign-symmetric), but the coordinate half relies on the
real-field identities `ponto_troca_x`/`ponto_troca_y`, which the two
distinct `float` rounding pipelines of the C code do not guarantee
bit-exactly; as an equal-coordinate statement this is therefore a theorem
about the exact model only, not about the compiled program. -/
theorem calcular_intersecao_simetrica (p1 p2 p3 p4 : Vertice) :
    calcular_intersecao p1 p2 p3 p4 = calcular_intersecao p3 p4 p1 p2 := by
  by_cases h : denomDe p1 p2 p3 p4 = 0
  · have h2 : denomDe p3 p4 p1 p2 = 0 := by rw [denomDe_troca, h, neg_zero]
    simp [calcular_intersecao, h, h2]
  · have h2 : denomDe p3 p4 p1 p2 ≠ 0 := by
      rw [denomDe_troca]; exact neg_ne_zero.mpr h
    rw [calcular_intersecao, calcular_intersecao, if_neg h, if_neg h2,
      uaDe_troca p1 p2 p3 p4, ubDe_troca p1 p2 p3 p4,
      ponto_troca_x p1 p2 p3 p4 h, ponto_troca_y p1 p2 p3 p4 h]
    exact if_congr (by tauto) rfl rfl

/-! ## C1: trivial path when source equals destination -/

/-- **C1**: calling `encontrar_caminhos` with `source = dest` on a vertex
present in the graph succeeds and yields exactly one path, the trivial path
`[v]`; the reported count (the number of emitted paths) is therefore `1`. -/
theorem encontrar_caminhos_origem_igual_destino (g : Grafo) (v : Nat)
    (_hv : v < g.vertices.length) :
    (encontrar_caminhos g (some v) (some v)).1 = .ok [[v]] := by
  simp [encontrar_caminhos, encontrar_caminhos_rec]

/-- Witness for C1 on the sample graph. -/
theorem encontrar_caminhos_origem_igual_destino_witness :
    1 < grafoExemplo.vertices.length ∧
    (encontrar_caminhos grafoExemplo (some 1) (some 1)).1 = .ok [[1]] :=
  ⟨by decide, encontrar_caminhos_origem_igual_destino grafoExemplo 1 (by decide)⟩

/-! ## C5: precondition checks of the path search -/

/-- **C5**: `encontrar_caminhos` checks its preconditions in order: a missing
(`NULL`) endpoint fails with the vertex-not-found outcome recording exactly
which endpoint (or both) is missing, regardless of the other argument; two
existing endpoints of different frequencies fail with the
frequency-mismatch outcome.  In every failure case the returned graph —
including its visited markers — is the unchanged input graph, and no search
is performed (the outcome carries no paths). -/
theorem encontrar_caminhos_precondicoes (g : Grafo) :
    (encontrar_caminhos g none none = (.antenaInexistente true true, g)) ∧
    (∀ j, encontrar_caminhos g none (some j) = (.antenaInexistente true false, g)) ∧
    (∀ i, encontrar_caminhos g (some i) none = (.antenaInexistente false true, g)) ∧
    (∀ i j, i < g.vertices.length → j < g.vertices.length →
      freqDe g i ≠ freqDe g j →
      encontrar_caminhos g (some i) (some j) = (.frequenciasDiferentes, g)) := by
  refine ⟨rfl, fun j => rfl, fun i => rfl, fun i j _ _ hf => ?_⟩
  simp [encontrar_caminhos, hf]

/-- Witness for C5: all four precondition outcomes on the sample graph
(vertex `0` has frequency `A`, vertex `3` frequency `B`). -/
theorem encontrar_caminhos_precondicoes_witness :
    encontrar_caminhos grafoExemplo none none
      = (.antenaInexistente true true, grafoExemplo) ∧
    encontrar_caminhos grafoExemplo none (some 0)
      = (.antenaInexistente true false, grafoExemplo) ∧
    encontrar_caminhos grafoExemplo (some 0) none
      = (.antenaInexistente false true, grafoExemplo) ∧
    encontrar_caminhos grafoExemplo (some 0) (some 3)
      = (.frequenciasDiferentes, grafoExemplo) :=
  ⟨(encontrar_caminhos_precondicoes grafoExemplo).1,
   (encontrar_caminhos_precondicoes grafoExemplo).2.1 0,
   (encontrar_caminhos_precondicoes grafoExemplo).2.2.1 0,
   (encontrar_caminhos_precondicoes grafoExemplo).2.2.2 0 3 (by decide) (by decide)
     (by decide)⟩

/-! ## C9: the search restores all visited markers -/

/-- Restatement of the successor equation of `encontrar_caminhos_rec` with
the named loop body `passoCaminhos`. -/
lemma encontrar_caminhos_rec_succ (g : Grafo) (fuel atual destino : Nat)
    (visitado : List Bool) (caminho : List Nat) :
    encontrar_caminhos_rec g (fuel + 1) atual destino visitado caminho
      = if atual = destino then ([(atual :: caminho).reverse], visitado)
        else
          ((((arestasDe g atual).foldl (passoCaminhos g fuel destino (atual :: caminho))
              ([], visitado.set atual true))).1,
           (((arestasDe g atual).foldl (passoCaminhos g fuel destino (atual :: caminho))
              ([], visitado.set atual true))).2.set atual false) := rfl

/-- The neighbour fold of `encontrar_caminhos_rec` leaves the marker state
unchanged, given that each recursive call does so on unvisited entry
vertices. -/
lemma foldl_passoCaminhos_visitado (g : Grafo) (fuel destino : Nat)
    (caminho : List Nat)
    (ih : ∀ a destino' vis caminho', vis.getD a false = false →
      (encontrar_caminhos_rec g fuel a destino' vis caminho').2 = vis) :
    ∀ (l : List Nat) (acc : List (List Nat) × List Bool),
      (l.foldl (passoCaminhos g fuel destino caminho) acc).2 = acc.2 := by
  intro l
  induction l with
  | nil => intro acc; rfl
  | cons a t iht =>
    intro acc
    rw [List.foldl_cons, iht]
    unfold passoCaminhos
    by_cases h : acc.2.getD a false = true
    · rw [if_pos h]
    · rw [if_neg h]
      exact ih a destino acc.2 caminho (by simpa using h)

/-- `encontrar_caminhos_rec` entered at an unvisited vertex returns the
marker state it was given: the backtracking marks and then unmarks every
vertex it visits, and never marks the destination. -/
lemma encontrar_caminhos_rec_visitado (g : Grafo) :
    ∀ (fuel atual destino : Nat) (visitado : List Bool) (caminho : List Nat),
      visitado.getD atual false = false →
      (encontrar_caminhos_rec g fuel atual destino visitado caminho).2 = visitado := by
  intro fuel
  induction fuel with
  | zero => intro atual destino visitado caminho _; rfl
  | succ fuel ih =>
    intro atual destino visitado caminho h
    rw [encontrar_caminhos_rec_succ]
    by_cases hd : atual = destino
    · rw [if_pos hd]
    · rw [if_neg hd]
      rw [foldl_passoCaminhos_visitado g fuel destino (atual :: caminho)
        (fun a d' vis cam' hv => ih a d' vis cam' hv)]
      rw [List.set_set]
      exact set_false_eq _ _ h

lemma getD_map_false (l : List Bool) (k : Nat) :
    (l.map (fun _ => false)).getD k false = false := by
  induction l generalizing k with
  | nil => rfl
  | cons b t iht =>
    cases k with
    | zero => rfl
    | succ k => exact iht k

/-- **C9**: after any `encontrar_caminhos` call that reaches the search
phase (both endpoints supplied and of equal frequency), every visited
marker in the returned graph is `false`: the search resets the markers on
entry and the backtracking restores every marker it sets. -/
theorem encontrar_caminhos_repoe_visitados (g : Grafo) (i j : Nat)
    (hf : freqDe g i = freqDe g j) :
    ∀ b ∈ (encontrar_caminhos g (some i) (some j)).2.visitado, b = false := by
  have hne : ¬ (freqDe g i ≠ freqDe g j) := by simp [hf]
  have hrec : (encontrar_caminhos_rec (reiniciar_visitados g)
      ((reiniciar_visitados g).vertices.length + 1) i j
      (reiniciar_visitados g).visitado []).2 = (reiniciar_visitados g).visitado :=
    encontrar_caminhos_rec_visitado _ _ _ _ _ _ (getD_map_false _ _)
  have hv : (encontrar_caminhos g (some i) (some j)).2.visitado
      = g.visitado.map (fun _ => false) := by
    show (if freqDe g i ≠ freqDe g j then (ResultadoCaminhos.frequenciasDiferentes, g)
      else
        (ResultadoCaminhos.ok (encontrar_caminhos_rec (reiniciar_visitados g)
            ((reiniciar_visitados g).vertices.length + 1) i j
            (reiniciar_visitados g).visitado []).1,
          { reiniciar_visitados g with
            visitado := (encontrar_caminhos_rec (reiniciar_visitados g)
              ((reiniciar_visitados g).vertices.length + 1) i j
              (reiniciar_visitados g).visitado []).2 })).2.visitado
      = g.visitado.map (fun _ => false)
    rw [if_neg hne]
    exact hrec
  rw [hv]
  simp

/-- Witness for C9 on the sample graph (a search between the connected
frequency-`A` vertices `0` and `2`). -/
theorem encontrar_caminhos_repoe_visitados_witness :
    freqDe grafoExemplo 0 = freqDe grafoExemplo 2 ∧
    ∀ b ∈ (encontrar_caminhos grafoExemplo (some 0) (some 2)).2.visitado,
      b = false :=
  ⟨by decide, encontrar_caminhos_repoe_visitados grafoExemplo 0 2 (by decide)⟩

/-! ## C6: intersection points are deduplicated by coordinate -/

/-- The body of the insertion loop of `intersecoes_frequencias`, named for
the proofs below. -/
def insereIntersecao (g : Grafo) (acc : List (Int × Int))
    (c : (Nat × Nat) × (Nat × Nat)) : List (Int × Int) :=
  match intersecaoDe g c with
  | none => acc
  | some p => if p ∈ acc then acc else p :: acc

lemma intersecoes_frequencias_eq (g : Grafo) (freqA freqB : Char) :
    intersecoes_frequencias g freqA freqB
      = ((paresCandidatos g freqA freqB).foldl (insereIntersecao g) []).length := rfl

lemma foldl_insere_toFinset (g : Grafo) :
    ∀ (l : List ((Nat × Nat) × (Nat × Nat))) (acc : List (Int × Int)),
      (l.foldl (insereIntersecao g) acc).toFinset
        = acc.toFinset ∪ (l.filterMap (intersecaoDe g)).toFinset := by
  intro l
  induction l with
  | nil => intro acc; simp
  | cons c t iht =>
    intro acc
    rw [List.foldl_cons]
    cases hc : intersecaoDe g c with
    | none =>
      rw [iht]
      simp [insereIntersecao, hc, List.filterMap_cons]
    | some p =>
      rw [iht]
      by_cases hmem : p ∈ acc
      · have h1 : insereIntersecao g acc c = acc := by
          simp [insereIntersecao, hc, hmem]
        rw [h1, List.filterMap_cons, hc]
        ext q
        simp only [Finset.mem_union, List.mem_toFinset, List.mem_cons]
        constructor
        · tauto
        · rintro (hq | hq | hq)
          · exact Or.inl hq
          · exact Or.inl (hq ▸ hmem)
          · exact Or.inr hq
      · have h1 : insereIntersecao g acc c = p :: acc := by
          simp [insereIntersecao, hc, hmem]
        rw [h1, List.filterMap_cons, hc]
        ext q
        simp only [Finset.mem_union, List.mem_toFinset, List.mem_cons]
        tauto

lemma foldl_insere_nodup (g : Grafo) :
    ∀ (l : List ((Nat × Nat) × (Nat × Nat))) (acc : List (Int × Int)),
      acc.Nodup → (l.foldl (insereIntersecao g) acc).Nodup := by
  intro l
  induction l with
  | nil => intro acc h; exact h
  | cons c t iht =>
    intro acc h
    rw [List.foldl_cons]
    cases hc : intersecaoDe g c with
    | none =>
      have h1 : insereIntersecao g acc c = acc := by simp [insereIntersecao, hc]
      rw [h1]; exact iht acc h
    | some p =>
      by_cases hmem : p ∈ acc
      · have h1 : insereIntersecao g acc c = acc := by
          simp [insereIntersecao, hc, hmem]
        rw [h1]; exact iht acc h
      · have h1 : insereIntersecao g acc c = p :: acc := by
          simp [insereIntersecao, hc, hmem]
        rw [h1]
        exact iht (p :: acc) (List.nodup_cons.mpr ⟨hmem, h⟩)

/-- **C6**: `intersecoes_frequencias` deduplicates by exact integer
coordinate across the whole query: its count equals the number of
*distinct* coordinates among all intersections produced by the candidate
edge pairs, so an edge pair that reproduces an already-seen coordinate
never increases the count. -/
theorem intersecoes_frequencias_dedup (g : Grafo) (freqA freqB : Char) :
    intersecoes_frequencias g freqA freqB
      = (coordsIntersecao g freqA freqB).dedup.length := by
  rw [intersecoes_frequencias_eq]
  have hnodup := foldl_insere_nodup g (paresCandidatos g freqA freqB) [] List.nodup_nil
  have hfin := foldl_insere_toFinset g (paresCandidatos g freqA freqB) []
  rw [← List.toFinset_card_of_nodup hnodup, hfin,
    ← List.toFinset_card_of_nodup (List.nodup_dedup (coordsIntersecao g freqA freqB))]
  congr 1
  ext p
  simp [coordsIntersecao]

/-! ## C8: interference projection of aligned same-frequency pairs -/

lemma atualizar_em (grelha : Int → Int → Char) (x y : Int) (c : Char) :
    atualizar grelha x y c x y = c := by
  simp [atualizar]

lemma atualizar_fora (grelha : Int → Int → Char) (x y : Int) (c : Char)
    (a b : Int) (h : ¬(a = x ∧ b = y)) : atualizar grelha x y c a b = grelha a b := by
  simp [atualizar, h]

/-- A cell holding no antenna is left untouched by the antenna pass. -/
lemma foldl_passoAntena_fora (g : Grafo) :
    ∀ (l : List Nat) (grelha : Int → Int → Char) (x y : Int),
      (∀ i ∈ l, ¬((verticeDe g i).x = x ∧ (verticeDe g i).y = y)) →
      (l.foldl (passoAntena g) grelha) x y = grelha x y := by
  intro l
  induction l with
  | nil => intro grelha x y _; rfl
  | cons j t iht =>
    intro grelha x y h
    rw [List.foldl_cons, iht _ x y (fun i hi => h i (List.mem_cons_of_mem _ hi))]
    exact atualizar_fora _ _ _ _ _ _
      (fun hc => h j (List.mem_cons_self _ _) ⟨hc.1.symm, hc.2.symm⟩)

/-- A cell holding at least one antenna ends the antenna pass holding the
frequency character of one of the antennas at that position. -/
lemma foldl_passoAntena_acerto (g : Grafo) :
    ∀ (l : List Nat) (grelha : Int → Int → Char) (x y : Int),
      (∃ i ∈ l, (verticeDe g i).x = x ∧ (verticeDe g i).y = y) →
      ∃ i ∈ l, (verticeDe g i).x = x ∧ (verticeDe g i).y = y ∧
        (l.foldl (passoAntena g) grelha) x y = freqDe g i := by
  intro l
  induction l with
  | nil => intro grelha x y h; simp at h
  | cons j t iht =>
    intro grelha x y h
    by_cases ht : ∃ i ∈ t, (verticeDe g i).x = x ∧ (verticeDe g i).y = y
    · obtain ⟨i, hi, hix, hiy, hval⟩ := iht (passoAntena g grelha j) x y ht
      exact ⟨i, List.mem_cons_of_mem _ hi, hix, hiy,
        by rw [List.foldl_cons]; exact hval⟩
    · obtain ⟨i, hi, hix, hiy⟩ := h
      rcases List.mem_cons.mp hi with rfl | hmem
      · refine ⟨i, List.mem_cons_self _ _, hix, hiy, ?_⟩
        rw [List.foldl_cons,
          foldl_passoAntena_fora g t _ x y (fun k hk hc => ht ⟨k, hk, hc⟩)]
        show atualizar grelha (verticeDe g i).x (verticeDe g i).y (freqDe g i) x y
          = freqDe g i
        rw [← hix, ← hiy]
        exact atualizar_em _ _ _ _
      · exact absurd ⟨i, hmem, hix, hiy⟩ ht

/-- Value of one `marcar_se_livre` write at an in-bounds cell `p`. -/
lemma marcar_se_livre_em (linhas colunas : Int) (grelha : Int → Int → Char)
    (q p : Int × Int) (hp : dentroDe linhas colunas p) :
    marcar_se_livre linhas colunas grelha q p.1 p.2
      = if q = p ∧ grelha p.1 p.2 = '.' then '#' else grelha p.1 p.2 := by
  by_cases hqp : q = p
  · subst hqp
    obtain ⟨h1, h2, h3, h4⟩ := hp
    unfold marcar_se_livre
    by_cases hdot : grelha q.1 q.2 = '.'
    · rw [if_pos ⟨h1, h2, h3, h4, hdot⟩, if_pos ⟨rfl, hdot⟩]
      exact atualizar_em _ _ _ _
    · rw [if_neg (fun hc => hdot hc.2.2.2.2), if_neg (fun hc => hdot hc.2)]
  · unfold marcar_se_livre
    rw [if_neg (fun hc : q = p ∧ _ => hqp hc.1)]
    split_ifs with hcond
    · exact atualizar_fora _ _ _ _ _ _
        (fun hc => hqp (Prod.ext_iff.mpr ⟨hc.1, hc.2⟩).symm)
    · rfl

/-- Value of one interference-pass iteration at an in-bounds cell `p`:
the cell becomes `'#'` exactly when it held `'.'` and the pair projects
onto it; otherwise it keeps its value. -/
lemma passoNefasto_em (g : Grafo) (linhas colunas : Int)
    (grelha : Int → Int → Char) (ij : Nat × Nat) (p : Int × Int)
    (hp : dentroDe linhas colunas p) :
    passoNefasto g linhas colunas grelha ij p.1 p.2
      = if grelha p.1 p.2 = '.' ∧ projetaPar g ij p then '#'
        else grelha p.1 p.2 := by
  unfold passoNefasto
  by_cases hcond : ij.1 ≠ ij.2 ∧ freqDe g ij.1 = freqDe g ij.2 ∧
      alinhado ((verticeDe g ij.2).x - (verticeDe g ij.1).x)
        ((verticeDe g ij.2).y - (verticeDe g ij.1).y)
  · rw [if_pos hcond]
    have hproj : projetaPar g ij p ↔
        ((pontosNefastos (verticeDe g ij.1) (verticeDe g ij.2)).1 = p ∨
          (pontosNefastos (verticeDe g ij.1) (verticeDe g ij.2)).2 = p) := by
      unfold projetaPar
      exact ⟨fun hc => hc.2.2.2, fun hc => ⟨hcond.1, hcond.2.1, hcond.2.2, hc⟩⟩
    rw [marcar_se_livre_em _ _ _ _ p hp, marcar_se_livre_em _ _ _ _ p hp]
    have hne : ('#' : Char) ≠ '.' := by decide
    by_cases h1 : (pontosNefastos (verticeDe g ij.1) (verticeDe g ij.2)).1 = p <;>
      by_cases h2 : (pontosNefastos (verticeDe g ij.1) (verticeDe g ij.2)).2 = p <;>
      by_cases hdot : grelha p.1 p.2 = '.' <;>
      simp_all [hproj]
  · rw [if_neg hcond]
    have hnp : ¬ projetaPar g ij p := fun hc => hcond ⟨hc.1, hc.2.1, hc.2.2.1⟩
    rw [if_neg (fun hc => hnp hc.2)]

/-- Value of the whole interference pass at an in-bounds cell `p`. -/
lemma foldl_passoNefasto_em (g : Grafo) (linhas colunas : Int) :
    ∀ (l : List (Nat × Nat)) (grelha : Int → Int → Char) (p : Int × Int),
      dentroDe linhas colunas p →
      (l.foldl (passoNefasto g linhas colunas) grelha) p.1 p.2
        = if grelha p.1 p.2 = '.' ∧ (∃ ij ∈ l, projetaPar g ij p) then '#'
          else grelha p.1 p.2 := by
  intro l
  induction l with
  | nil => intro grelha p _; simp
  | cons c t iht =>
    intro grelha p hp
    rw [List.foldl_cons, iht _ p hp, passoNefasto_em g _ _ _ _ p hp]
    by_cases hdot : grelha p.1 p.2 = '.'
    · by_cases hc : projetaPar g c p
      · have hstep : (if grelha p.1 p.2 = '.' ∧ projetaPar g c p then '#'
            else grelha p.1 p.2) = '#' := if_pos ⟨hdot, hc⟩
        rw [hstep,
          if_neg (fun hcc => (by decide : ('#' : Char) ≠ '.') hcc.1),
          if_pos ⟨hdot, ⟨c, List.mem_cons_self _ _, hc⟩⟩]
      · have hstep : (if grelha p.1 p.2 = '.' ∧ projetaPar g c p then '#'
            else grelha p.1 p.2) = grelha p.1 p.2 := if_neg (fun hcc => hc hcc.2)
        rw [hstep]
        by_cases htp : ∃ ij ∈ t, projetaPar g ij p
        · obtain ⟨ij, hij, hpr⟩ := htp
          rw [if_pos ⟨hdot, ⟨ij, hij, hpr⟩⟩,
            if_pos ⟨hdot, ⟨ij, List.mem_cons_of_mem _ hij, hpr⟩⟩]
        · rw [if_neg (fun hcc => htp hcc.2), if_neg ?_]
          rintro ⟨-, ij, hij, hpr⟩
          rcases List.mem_cons.mp hij with rfl | hmm
          · exact hc hpr
          · exact htp ⟨ij, hmm, hpr⟩
    · have hstep : (if grelha p.1 p.2 = '.' ∧ projetaPar g c p then '#'
          else grelha p.1 p.2) = grelha p.1 p.2 := if_neg (fun hcc => hdot hcc.1)
      rw [hstep, if_neg (fun hcc => hdot hcc.1), if_neg (fun hcc => hdot hcc.1)]

/-- A vertex of the graph list seen through `verticeDe`, and back. -/
lemma sem_antena_iff (g : Grafo) (p : Int × Int) :
    (∀ v ∈ g.vertices, ¬(v.x = p.1 ∧ v.y = p.2)) ↔
    (∀ i ∈ ordemVertices g,
      ¬((verticeDe g i).x = p.1 ∧ (verticeDe g i).y = p.2)) := by
  constructor
  · intro h i hi
    have hin : i < g.vertices.length := by simpa [ordemVertices] using hi
    apply h
    unfold verticeDe
    rw [List.getD_eq_getElem _ _ hin]
    exact List.getElem_mem hin
  · intro h v hv hc
    obtain ⟨i, hin, hvi⟩ := List.mem_iff_getElem.mp hv
    apply h i (by simpa [ordemVertices] using hin)
    unfold verticeDe
    rw [List.getD_eq_getElem _ _ hin, hvi]
    exact hc

/-- Membership in the ordered-pair enumeration is exactly a pair of valid
ids. -/
lemma mem_paresOrdenados (g : Grafo) (i j : Nat) :
    (i, j) ∈ paresOrdenados g ↔
      i < g.vertices.length ∧ j < g.vertices.length := by
  simp [paresOrdenados, ordemVertices]

/-- **C8**: on a map whose antennas use frequency characters other than
`'.'` and `'#'`, an in-bounds cell of the rendered map holds the
interference mark `'#'` exactly when no antenna occupies it and some
ordered pair of distinct same-frequency vertices with an aligned delta
projects one of its two points `v − delta` or `u + delta` onto it; and the
two projected points of the pair `(2,2)`, `(4,2)` are `(0,2)` and `(6,2)`. -/
theorem imprimir_mapa_projecoes (g : Grafo) (linhas colunas : Int)
    (hfreq : ∀ v ∈ g.vertices, v.frequencia ≠ '.' ∧ v.frequencia ≠ '#')
    (p : Int × Int) (hp : dentroDe linhas colunas p) :
    (imprimir_mapa g linhas colunas p.1 p.2 = '#' ↔
      ((∀ v ∈ g.vertices, ¬(v.x = p.1 ∧ v.y = p.2)) ∧
        ∃ i j, i < g.vertices.length ∧ j < g.vertices.length ∧
          projetaPar g (i, j) p)) ∧
    (∀ f : Char, pontosNefastos ⟨f, 2, 2⟩ ⟨f, 4, 2⟩ = ((0, 2), (6, 2))) := by
  refine ⟨?_, fun f => rfl⟩
  unfold imprimir_mapa marcar_nefastos
  rw [foldl_passoNefasto_em g linhas colunas _ _ p hp]
  by_cases hant : ∃ i ∈ ordemVertices g,
      (verticeDe g i).x = p.1 ∧ (verticeDe g i).y = p.2
  · obtain ⟨i, hi, hix, hiy, hval⟩ :=
      foldl_passoAntena_acerto g (ordemVertices g) grelhaVazia p.1 p.2 hant
    have hin : i < g.vertices.length := by simpa [ordemVertices] using hi
    have hmem : verticeDe g i ∈ g.vertices := by
      unfold verticeDe
      rw [List.getD_eq_getElem _ _ hin]
      exact List.getElem_mem hin
    have hf := hfreq _ hmem
    unfold marcar_antenas
    rw [hval, if_neg (fun hcc => hf.1 hcc.1)]
    constructor
    · intro hcc
      exact absurd hcc hf.2
    · rintro ⟨hno, -⟩
      exact absurd ⟨hix, hiy⟩ (hno _ hmem)
  · have hbase : (marcar_antenas g grelhaVazia) p.1 p.2 = '.' := by
      unfold marcar_antenas
      rw [foldl_passoAntena_fora g _ _ _ _ (fun i hi hc => hant ⟨i, hi, hc⟩)]
      rfl
    rw [hbase]
    have hpar : (∃ ij ∈ paresOrdenados g, projetaPar g ij p) ↔
        (∃ i j, i < g.vertices.length ∧ j < g.vertices.length ∧
          projetaPar g (i, j) p) := by
      constructor
      · rintro ⟨⟨i, j⟩, hmem, hproj⟩
        obtain ⟨h1, h2⟩ := (mem_paresOrdenados g i j).mp hmem
        exact ⟨i, j, h1, h2, hproj⟩
      · rintro ⟨i, j, h1, h2, hproj⟩
        exact ⟨(i, j), (mem_paresOrdenados g i j).mpr ⟨h1, h2⟩, hproj⟩
    have hsem : ∀ v ∈ g.vertices, ¬(v.x = p.1 ∧ v.y = p.2) :=
      (sem_antena_iff g p).mpr (fun i hi hc => hant ⟨i, hi, hc⟩)
    constructor
    · intro h'
      by_cases hex : ∃ ij ∈ paresOrdenados g, projetaPar g ij p
      · exact ⟨hsem, hpar.mp hex⟩
      · rw [if_neg (fun hcc => hex hcc.2)] at h'
        exact absurd h' (by decide)
    · rintro ⟨-, hex⟩
      rw [if_pos ⟨rfl, hpar.mpr hex⟩]

/-- Witness for C8: on the two-antenna sample map, the projected cell
`(0, 2)` of the pair `(2,2)`–`(4,2)` is rendered as `'#'`. -/
theorem imprimir_mapa_projecoes_witness :
    (∀ v ∈ grafoMapa.vertices, v.frequencia ≠ '.' ∧ v.frequencia ≠ '#') ∧
    dentroDe 7 7 (0, 2) ∧
    ((imprimir_mapa grafoMapa 7 7 0 2 = '#' ↔
      ((∀ v ∈ grafoMapa.vertices, ¬(v.x = 0 ∧ v.y = 2)) ∧
        ∃ i j, i < grafoMapa.vertices.length ∧ j < grafoMapa.vertices.length ∧
          projetaPar grafoMapa (i, j) (0, 2))) ∧
      (∀ f : Char, pontosNefastos ⟨f, 2, 2⟩ ⟨f, 4, 2⟩ = ((0, 2), (6, 2)))) :=
  ⟨by decide, by decide,
   imprimir_mapa_projecoes grafoMapa 7 7 (by decide) (0, 2) (by decide)⟩

/-! ## C7: DFS and BFS visit the same set of vertices

Both searches are characterised against reachability (`Alcancavel`): on a
well-formed graph, the final marker state of either search from `v` marks
exactly the vertices reachable from `v`.  The two marker lists are then
equal pointwise. -/

lemma getD_set_true (l : List Bool) (v w : Nat) (h : l.getD w false = true) :
    (l.set v true).getD w false = true := by
  by_cases hvw : v = w
  · subst hvw
    by_cases hlt : v < l.length
    · rw [getD_set_self _ _ _ hlt]
    · rw [List.set_eq_of_length_le (Nat.le_of_not_lt hlt)]
      exact h
  · rw [getD_set_ne _ _ _ hvw]
    exact h

lemma set_true_eq (l : List Bool) (i : Nat) (h : l.getD i false = true) :
    l.set i true = l := by
  induction l generalizing i with
  | nil => rfl
  | cons b t ih =>
    cases i with
    | zero => simp_all
    | succ i => simp_all

lemma count_true_set_true_ge (l : List Bool) (v : Nat) :
    l.count true ≤ (l.set v true).count true := by
  by_cases hlt : v < l.length
  · cases hv : l.getD v false
    · rw [count_true_set_true l hlt hv]
      exact Nat.le_succ _
    · rw [set_true_eq l v hv]
  · rw [List.set_eq_of_length_le (Nat.le_of_not_lt hlt)]

lemma count_true_eq_zero (l : List Bool) (h : ∀ k, l.getD k false = false) :
    l.count true = 0 := by
  refine List.count_eq_zero.mpr (fun hmem => ?_)
  obtain ⟨k, hk, hv⟩ := List.mem_iff_getElem.mp hmem
  have := h k
  rw [List.getD_eq_getElem _ _ hk, hv] at this
  exact Bool.true_eq_false.mp this

lemma marcado_set_cases (l : List Bool) (v w : Nat)
    (h : (l.set v true).getD w false = true) :
    w = v ∨ l.getD w false = true := by
  by_cases hvw : w = v
  · exact Or.inl hvw
  · rw [getD_set_ne _ _ _ (fun hc => hvw hc.symm)] at h
    exact Or.inr h

lemma bool_eq_of_iff {a b : Bool} (h : a = true ↔ b = true) : a = b := by
  cases a <;> cases b <;> simp_all

/-- Adjacency targets are valid ids on a well-formed graph. -/
lemma bemFormado_arestas (g : Grafo) (h : bemFormado g) (i a : Nat)
    (ha : a ∈ arestasDe g i) : a < g.vertices.length := by
  unfold arestasDe at ha
  by_cases hi : i < g.arestas.length
  · refine h.2.2 _ ?_ a (by rwa [List.getD_eq_getElem _ _ hi] at ha)
    exact List.getElem_mem hi
  · rw [List.getD_eq_default _ _ (Nat.le_of_not_lt hi)] at ha
    simp at ha

lemma bemFormado_reiniciar (g : Grafo) (h : bemFormado g) :
    bemFormado (reiniciar_visitados g) := by
  obtain ⟨h1, h2, h3⟩ := h
  exact ⟨h1, by simpa [reiniciar_visitados] using h2, h3⟩

/-- Successor equation of the DFS recursion, with the named loop body. -/
lemma procura_profundidade_rec_succ (g : Grafo) (fuel v : Nat)
    (visitado : List Bool) :
    procura_profundidade_rec g (fuel + 1) v visitado
      = if visitado.getD v false then ([], visitado)
        else (arestasDe g v).foldl (passoProfundidade g fuel)
          ([v], visitado.set v true) := rfl

/-- The DFS neighbour fold preserves marker-list length, given that each
recursive call does. -/
lemma foldl_passoProfundidade_length (g : Grafo) (fuel : Nat)
    (ih : ∀ a vis, ((procura_profundidade_rec g fuel a vis).2).length = vis.length) :
    ∀ (l : List Nat) (acc : List Nat × List Bool),
      ((l.foldl (passoProfundidade g fuel) acc).2).length = acc.2.length := by
  intro l
  induction l with
  | nil => intro acc; rfl
  | cons a t iht =>
    intro acc
    rw [List.foldl_cons, iht]
    exact ih a acc.2

/-- DFS preserves the marker-list length. -/
lemma procura_profundidade_rec_length (g : Grafo) :
    ∀ (fuel v : Nat) (vis : List Bool),
      ((procura_profundidade_rec g fuel v vis).2).length = vis.length := by
  intro fuel
  induction fuel with
  | zero => intro v vis; rfl
  | succ fuel ih =>
    intro v vis
    rw [procura_profundidade_rec_succ]
    by_cases h : vis.getD v false = true
    · rw [if_pos h]
    · rw [if_neg h, foldl_passoProfundidade_length g fuel (fun a w => ih a w)]
      exact List.length_set ..

/-- The DFS neighbour fold never unmarks a vertex. -/
lemma foldl_passoProfundidade_mono (g : Grafo) (fuel : Nat)
    (ih : ∀ a vis w, vis.getD w false = true →
      ((procura_profundidade_rec g fuel a vis).2).getD w false = true) :
    ∀ (l : List Nat) (acc : List Nat × List Bool) (w : Nat),
      acc.2.getD w false = true →
      ((l.foldl (passoProfundidade g fuel) acc).2).getD w false = true := by
  intro l
  induction l with
  | nil => intro acc w h; exact h
  | cons a t iht =>
    intro acc w h
    rw [List.foldl_cons]
    exact iht _ w (ih a acc.2 w h)

/-- DFS never unmarks a vertex. -/
lemma procura_profundidade_rec_mono (g : Grafo) :
    ∀ (fuel v : Nat) (vis : List Bool) (w : Nat),
      vis.getD w false = true →
      ((procura_profundidade_rec g fuel v vis).2).getD w false = true := by
  intro fuel
  induction fuel with
  | zero => intro v vis w h; exact h
  | succ fuel ih =>
    intro v vis w h
    rw [procura_profundidade_rec_succ]
    by_cases hv : vis.getD v false = true
    · rw [if_pos hv]; exact h
    · rw [if_neg hv]
      exact foldl_passoProfundidade_mono g fuel (fun a u uw hu => ih a u uw hu) _ _ w
        (getD_set_true vis v w h)

/-- The DFS neighbour fold never decreases the number of marked vertices. -/
lemma foldl_passoProfundidade_count (g : Grafo) (fuel : Nat)
    (ih : ∀ a vis, vis.count true ≤ ((procura_profundidade_rec g fuel a vis).2).count true) :
    ∀ (l : List Nat) (acc : List Nat × List Bool),
      acc.2.count true ≤ ((l.foldl (passoProfundidade g fuel) acc).2).count true := by
  intro l
  induction l with
  | nil => intro acc; exact Nat.le_refl _
  | cons a t iht =>
    intro acc
    rw [List.foldl_cons]
    exact Nat.le_trans (ih a acc.2) (iht (passoProfundidade g fuel acc a))

/-- DFS never decreases the number of marked vertices. -/
lemma procura_profundidade_rec_count (g : Grafo) :
    ∀ (fuel v : Nat) (vis : List Bool),
      vis.count true ≤ ((procura_profundidade_rec g fuel v vis).2).count true := by
  intro fuel
  induction fuel with
  | zero => intro v vis; exact Nat.le_refl _
  | succ fuel ih =>
    intro v vis
    rw [procura_profundidade_rec_succ]
    by_cases hv : vis.getD v false = true
    · rw [if_pos hv]
    · rw [if_neg hv]
      exact Nat.le_trans (count_true_set_true_ge vis v)
        (foldl_passoProfundidade_count g fuel (fun a u => ih a u)
          (arestasDe g v) ([v], vis.set v true))

/-- Soundness of the DFS neighbour fold: a newly marked vertex is reachable
from the vertex whose neighbours are folded over. -/
lemma foldl_passoProfundidade_sound (g : Grafo) (fuel v : Nat)
    (ih : ∀ a vis w, ((procura_profundidade_rec g fuel a vis).2).getD w false = true →
      vis.getD w false = true ∨ Alcancavel g a w) :
    ∀ (l : List Nat) (acc : List Nat × List Bool) (w : Nat),
      (∀ a ∈ l, ArestaEm g v a) →
      ((l.foldl (passoProfundidade g fuel) acc).2).getD w false = true →
      acc.2.getD w false = true ∨ Alcancavel g v w := by
  intro l
  induction l with
  | nil => intro acc w _ h; exact Or.inl h
  | cons a t iht =>
    intro acc w hl h
    rw [List.foldl_cons] at h
    rcases iht _ w (fun b hb => hl b (List.mem_cons_of_mem _ hb)) h with h1 | h1
    · rcases ih a acc.2 w h1 with h2 | h2
      · exact Or.inl h2
      · exact Or.inr (Relation.ReflTransGen.head (hl a (List.mem_cons_self _ _)) h2)
    · exact Or.inr h1

/-- Soundness of DFS: a newly marked vertex is reachable from the start. -/
lemma procura_profundidade_rec_sound (g : Grafo) :
    ∀ (fuel v : Nat) (vis : List Bool) (w : Nat),
      ((procura_profundidade_rec g fuel v vis).2).getD w false = true →
      vis.getD w false = true ∨ Alcancavel g v w := by
  intro fuel
  induction fuel with
  | zero => intro v vis w h; exact Or.inl h
  | succ fuel ih =>
    intro v vis w h
    rw [procura_profundidade_rec_succ] at h
    by_cases hv : vis.getD v false = true
    · rw [if_pos hv] at h; exact Or.inl h
    · rw [if_neg hv] at h
      rcases foldl_passoProfundidade_sound g fuel v (fun a u uw hu => ih a u uw hu)
          _ _ w (fun a ha => ha) h with h1 | h1
      · rcases marcado_set_cases vis v w h1 with rfl | h2
        · exact Or.inr Relation.ReflTransGen.refl
        · exact Or.inl h2
      · exact Or.inr h1

/-- With enough fuel, DFS marks its (valid) start vertex. -/
lemma procura_profundidade_rec_marca (g : Grafo) :
    ∀ (fuel v : Nat) (vis : List Bool),
      vis.length = g.vertices.length →
      g.vertices.length + 1 ≤ fuel + vis.count true →
      v < g.vertices.length →
      ((procura_profundidade_rec g fuel v vis).2).getD v false = true := by
  intro fuel
  cases fuel with
  | zero =>
    intro v vis hlen hfuel _
    have hc := List.count_le_length true vis
    exact absurd hfuel (by omega)
  | succ fuel =>
    intro v vis hlen hfuel hv
    rw [procura_profundidade_rec_succ]
    by_cases hvis : vis.getD v false = true
    · rw [if_pos hvis]
      exact hvis
    · rw [if_neg hvis]
      have hmark : (vis.set v true).getD v false = true :=
        getD_set_self vis true false (by omega)
      exact foldl_passoProfundidade_mono g fuel
        (fun a u w hu => procura_profundidade_rec_mono g fuel a u w hu)
        (arestasDe g v) ([v], vis.set v true) v hmark

/-- After the DFS neighbour fold, every vertex of the folded list is
marked. -/
lemma foldl_passoProfundidade_marca_todos (g : Grafo) (fuel : Nat) :
    ∀ (l : List Nat) (acc : List Nat × List Bool),
      (∀ a ∈ l, a < g.vertices.length) →
      acc.2.length = g.vertices.length →
      g.vertices.length + 1 ≤ fuel + acc.2.count true →
      ∀ a ∈ l, ((l.foldl (passoProfundidade g fuel) acc).2).getD a false = true := by
  intro l
  induction l with
  | nil => intro acc _ _ _ a ha; simp at ha
  | cons b t iht =>
    intro acc hl hlen hfuel a ha
    rw [List.foldl_cons]
    rcases List.mem_cons.mp ha with rfl | hat
    · have hstep : ((procura_profundidade_rec g fuel a acc.2).2).getD a false = true :=
        procura_profundidade_rec_marca g fuel a acc.2 hlen hfuel
          (hl a (List.mem_cons_self _ _))
      exact foldl_passoProfundidade_mono g fuel
        (fun c u w hu => procura_profundidade_rec_mono g fuel c u w hu) t
        (passoProfundidade g fuel acc a) a hstep
    · refine iht (passoProfundidade g fuel acc b)
        (fun c hc => hl c (List.mem_cons_of_mem _ hc)) ?_ ?_ a hat
      · exact (procura_profundidade_rec_length g fuel b acc.2).trans hlen
      · exact Nat.le_trans hfuel
          (Nat.add_le_add_left (procura_profundidade_rec_count g fuel b acc.2) fuel)

/-- Closure of the DFS neighbour fold: every vertex marked during the fold
either was already marked or ends with all its neighbours marked. -/
lemma foldl_passoProfundidade_fechado (g : Grafo) (fuel : Nat)
    (ihf : ∀ v vis, vis.length = g.vertices.length →
      g.vertices.length + 1 ≤ fuel + vis.count true → v < g.vertices.length →
      ∀ w, ((procura_profundidade_rec g fuel v vis).2).getD w false = true →
        vis.getD w false = true ∨
        ∀ a ∈ arestasDe g w,
          ((procura_profundidade_rec g fuel v vis).2).getD a false = true) :
    ∀ (l : List Nat) (acc : List Nat × List Bool),
      (∀ a ∈ l, a < g.vertices.length) →
      acc.2.length = g.vertices.length →
      g.vertices.length + 1 ≤ fuel + acc.2.count true →
      ∀ w, ((l.foldl (passoProfundidade g fuel) acc).2).getD w false = true →
        acc.2.getD w false = true ∨
        ∀ a ∈ arestasDe g w,
          ((l.foldl (passoProfundidade g fuel) acc).2).getD a false = true := by
  intro l
  induction l with
  | nil => intro acc _ _ _ w hw; exact Or.inl hw
  | cons b t iht =>
    intro acc hl hlen hfuel w hw
    rw [List.foldl_cons] at hw ⊢
    have hlen' : (passoProfundidade g fuel acc b).2.length = g.vertices.length :=
      (procura_profundidade_rec_length g fuel b acc.2).trans hlen
    have hfuel' : g.vertices.length + 1
        ≤ fuel + (passoProfundidade g fuel acc b).2.count true :=
      Nat.le_trans hfuel
        (Nat.add_le_add_left (procura_profundidade_rec_count g fuel b acc.2) fuel)
    rcases iht (passoProfundidade g fuel acc b)
        (fun c hc => hl c (List.mem_cons_of_mem _ hc)) hlen' hfuel' w hw with h1 | h1
    · rcases ihf b acc.2 hlen hfuel (hl b (List.mem_cons_self _ _)) w h1 with h2 | h2
      · exact Or.inl h2
      · refine Or.inr (fun a ha => ?_)
        exact foldl_passoProfundidade_mono g fuel
          (fun c u uw hu => procura_profundidade_rec_mono g fuel c u uw hu) t
          (passoProfundidade g fuel acc b) a (h2 a ha)
    · exact Or.inr h1

/-- Closure of DFS with enough fuel: every vertex marked during the call
either was marked before or ends with all its neighbours marked. -/
lemma procura_profundidade_rec_fechado (g : Grafo) (hwf : bemFormado g) :
    ∀ (fuel v : Nat) (vis : List Bool),
      vis.length = g.vertices.length →
      g.vertices.length + 1 ≤ fuel + vis.count true →
      v < g.vertices.length →
      ∀ w, ((procura_profundidade_rec g fuel v vis).2).getD w false = true →
        vis.getD w false = true ∨
        ∀ a ∈ arestasDe g w,
          ((procura_profundidade_rec g fuel v vis).2).getD a false = true := by
  intro fuel
  induction fuel with
  | zero =>
    intro v vis hlen hfuel hv
    have hc := List.count_le_length true vis
    exact absurd hfuel (by omega)
  | succ fuel ih =>
    intro v vis hlen hfuel hv w hw
    rw [procura_profundidade_rec_succ] at hw ⊢
    by_cases hvis : vis.getD v false = true
    · rw [if_pos hvis] at hw ⊢
      exact Or.inl hw
    · rw [if_neg hvis] at hw ⊢
      have hvf : vis.getD v false = false := by
        cases hx : vis.getD v false
        · rfl
        · exact absurd hx hvis
      have hlen0 : ((vis.set v true) : List Bool).length = g.vertices.length := by
        rw [List.length_set]; exact hlen
      have hcount0 : (vis.set v true).count true = vis.count true + 1 :=
        count_true_set_true vis (by omega) hvf
      have hfuel0 : g.vertices.length + 1 ≤ fuel + (vis.set v true).count true := by
        omega
      rcases foldl_passoProfundidade_fechado g fuel
          (fun vv uu a1 a2 a3 => ih vv uu a1 a2 a3)
          (arestasDe g v) ([v], vis.set v true)
          (fun a ha => bemFormado_arestas g hwf v a ha) hlen0 hfuel0 w hw with h1 | h1
      · rcases marcado_set_cases vis v w h1 with hwv | h2
        · subst hwv
          refine Or.inr (fun a ha => ?_)
          exact foldl_passoProfundidade_marca_todos g fuel
            (arestasDe g w) ([w], vis.set w true)
            (fun c hc => bemFormado_arestas g hwf w c hc) hlen0 hfuel0 a ha
        · exact Or.inl h2
      · exact Or.inr h1

/-- Characterisation of DFS on a well-formed graph from an all-false marker
state: the final markers are exactly the vertices reachable from the
start. -/
lemma procura_profundidade_alcanca (g : Grafo) (hwf : bemFormado g)
    (v : Nat) (hv : v < g.vertices.length) (vis : List Bool)
    (hlen : vis.length = g.vertices.length)
    (hfalse : ∀ k, vis.getD k false = false) (w : Nat) :
    ((procura_profundidade_rec g (g.vertices.length + 1) v vis).2).getD w false = true
      ↔ Alcancavel g v w := by
  have hcount : vis.count true = 0 := count_true_eq_zero vis hfalse
  have hfuel : g.vertices.length + 1 ≤ (g.vertices.length + 1) + vis.count true := by
    omega
  constructor
  · intro h
    rcases procura_profundidade_rec_sound g _ v vis w h with h1 | h1
    · rw [hfalse w] at h1
      exact absurd h1 (by decide)
    · exact h1
  · intro h
    induction h with
    | refl => exact procura_profundidade_rec_marca g _ v vis hlen hfuel hv
    | tail hab hbc ihh =>
      rcases procura_profundidade_rec_fechado g hwf _ v vis hlen hfuel hv _ ihh
        with h2 | h2
      · rw [hfalse _] at h2
        exact absurd h2 (by decide)
      · exact h2 _ hbc

/-- One step of the BFS neighbour fold, in conditional form. -/
lemma passoVizinho_eq (fila : List Nat) (vis : List Bool) (a : Nat) :
    passoVizinho (fila, vis) a
      = if vis.getD a false then (fila, vis)
        else (fila ++ [a], vis.set a true) := rfl

/-- The BFS neighbour fold preserves marker-list length. -/
lemma foldl_passoVizinho_length :
    ∀ (l fila : List Nat) (vis : List Bool),
      ((l.foldl passoVizinho (fila, vis)).2).length = vis.length := by
  intro l
  induction l with
  | nil => intro fila vis; rfl
  | cons a t iht =>
    intro fila vis
    rw [List.foldl_cons, passoVizinho_eq]
    by_cases h : vis.getD a false = true
    · rw [if_pos h]
      exact iht fila vis
    · rw [if_neg h, iht _ _]
      exact List.length_set ..

/-- The BFS neighbour fold never unmarks a vertex. -/
lemma foldl_passoVizinho_mono :
    ∀ (l fila : List Nat) (vis : List Bool) (w : Nat),
      vis.getD w false = true →
      ((l.foldl passoVizinho (fila, vis)).2).getD w false = true := by
  intro l
  induction l with
  | nil => intro fila vis w h; exact h
  | cons a t iht =>
    intro fila vis w h
    rw [List.foldl_cons, passoVizinho_eq]
    by_cases ha : vis.getD a false = true
    · rw [if_pos ha]
      exact iht fila vis w h
    · rw [if_neg ha]
      exact iht _ _ w (getD_set_true vis a w h)

/-- Every element of the queue produced by the BFS neighbour fold comes
from the original queue or from the folded neighbour list. -/
lemma foldl_passoVizinho_fila_origem :
    ∀ (l fila : List Nat) (vis : List Bool) (q : Nat),
      q ∈ (l.foldl passoVizinho (fila, vis)).1 → q ∈ fila ∨ q ∈ l := by
  intro l
  induction l with
  | nil => intro fila vis q h; exact Or.inl h
  | cons a t iht =>
    intro fila vis q h
    rw [List.foldl_cons, passoVizinho_eq] at h
    by_cases ha : vis.getD a false = true
    · rw [if_pos ha] at h
      rcases iht fila vis q h with h1 | h1
      · exact Or.inl h1
      · exact Or.inr (List.mem_cons_of_mem _ h1)
    · rw [if_neg ha] at h
      rcases iht _ _ q h with h1 | h1
      · rcases List.mem_append.mp h1 with h2 | h2
        · exact Or.inl h2
        · exact Or.inr (by rw [List.mem_singleton.mp h2]; exact List.mem_cons_self a t)
      · exact Or.inr (List.mem_cons_of_mem _ h1)

/-- Every vertex newly marked by the BFS neighbour fold is one of the
folded neighbours. -/
lemma foldl_passoVizinho_marcado_origem :
    ∀ (l fila : List Nat) (vis : List Bool) (w : Nat),
      ((l.foldl passoVizinho (fila, vis)).2).getD w false = true →
      vis.getD w false = true ∨ w ∈ l := by
  intro l
  induction l with
  | nil => intro fila vis w h; exact Or.inl h
  | cons a t iht =>
    intro fila vis w h
    rw [List.foldl_cons, passoVizinho_eq] at h
    by_cases ha : vis.getD a false = true
    · rw [if_pos ha] at h
      rcases iht fila vis w h with h1 | h1
      · exact Or.inl h1
      · exact Or.inr (List.mem_cons_of_mem _ h1)
    · rw [if_neg ha] at h
      rcases iht _ _ w h with h1 | h1
      · rcases marcado_set_cases vis a w h1 with rfl | h2
        · exact Or.inr (List.mem_cons_self _ _)
        · exact Or.inl h2
      · exact Or.inr (List.mem_cons_of_mem _ h1)

/-- After the BFS neighbour fold, every folded neighbour is marked. -/
lemma foldl_passoVizinho_marca_todos :
    ∀ (l fila : List Nat) (vis : List Bool),
      (∀ a ∈ l, a < vis.length) →
      ∀ a ∈ l, ((l.foldl passoVizinho (fila, vis)).2).getD a false = true := by
  intro l
  induction l with
  | nil => intro fila vis _ a ha; simp at ha
  | cons b t iht =>
    intro fila vis hl a ha
    rw [List.foldl_cons, passoVizinho_eq]
    by_cases hb : vis.getD b false = true
    · rw [if_pos hb]
      rcases List.mem_cons.mp ha with rfl | hat
      · exact foldl_passoVizinho_mono t fila vis a hb
      · exact iht fila vis (fun c hc => hl c (List.mem_cons_of_mem _ hc)) a hat
    · rw [if_neg hb]
      rcases List.mem_cons.mp ha with rfl | hat
      · refine foldl_passoVizinho_mono t _ _ a ?_
        exact getD_set_self vis true false (hl a (List.mem_cons_self _ _))
      · refine iht _ _ ?_ a hat
        intro c hc
        rw [List.length_set]
        exact hl c (List.mem_cons_of_mem _ hc)

/-- If every queued vertex is marked, this remains true of the queue and
markers produced by the BFS neighbour fold (mark-on-enqueue). -/
lemma foldl_passoVizinho_fila_marcada :
    ∀ (l fila : List Nat) (vis : List Bool),
      (∀ a ∈ l, a < vis.length) →
      (∀ q ∈ fila, vis.getD q false = true) →
      ∀ q ∈ (l.foldl passoVizinho (fila, vis)).1,
        ((l.foldl passoVizinho (fila, vis)).2).getD q false = true := by
  intro l
  induction l with
  | nil => intro fila vis _ hq q hmem; exact hq q hmem
  | cons a t iht =>
    intro fila vis hl hq q hmem
    rw [List.foldl_cons, passoVizinho_eq] at hmem ⊢
    by_cases ha : vis.getD a false = true
    · rw [if_pos ha] at hmem ⊢
      exact iht fila vis (fun c hc => hl c (List.mem_cons_of_mem _ hc)) hq q hmem
    · rw [if_neg ha] at hmem ⊢
      refine iht _ _ ?_ ?_ q hmem
      · intro c hc
        rw [List.length_set]
        exact hl c (List.mem_cons_of_mem _ hc)
      · intro c hc
        rcases List.mem_append.mp hc with h2 | h2
        · exact getD_set_true vis a c (hq c h2)
        · rw [List.mem_singleton.mp h2]
          exact getD_set_self vis true false (hl a (List.mem_cons_self _ _))

/-- The BFS neighbour fold only appends to the queue. -/
lemma foldl_passoVizinho_fila_preserva :
    ∀ (l fila : List Nat) (vis : List Bool) (q : Nat),
      q ∈ fila → q ∈ (l.foldl passoVizinho (fila, vis)).1 := by
  intro l
  induction l with
  | nil => intro fila vis q h; exact h
  | cons a t iht =>
    intro fila vis q h
    rw [List.foldl_cons, passoVizinho_eq]
    by_cases ha : vis.getD a false = true
    · rw [if_pos ha]
      exact iht fila vis q h
    · rw [if_neg ha]
      exact iht _ _ q (List.mem_append.mpr (Or.inl h))

/-- Every vertex newly marked by the BFS neighbour fold is placed on the
produced queue. -/
lemma foldl_passoVizinho_novo_na_fila :
    ∀ (l fila : List Nat) (vis : List Bool) (w : Nat),
      ((l.foldl passoVizinho (fila, vis)).2).getD w false = true →
      vis.getD w false = true ∨ w ∈ (l.foldl passoVizinho (fila, vis)).1 := by
  intro l
  induction l with
  | nil => intro fila vis w h; exact Or.inl h
  | cons a t iht =>
    intro fila vis w h
    rw [List.foldl_cons, passoVizinho_eq] at h ⊢
    by_cases ha : vis.getD a false = true
    · rw [if_pos ha] at h ⊢
      exact iht fila vis w h
    · rw [if_neg ha] at h ⊢
      rcases iht _ _ w h with h1 | h1
      · rcases marcado_set_cases vis a w h1 with rfl | h2
        · refine Or.inr (foldl_passoVizinho_fila_preserva t _ _ w ?_)
          exact List.mem_append.mpr (Or.inr (List.mem_singleton.mpr rfl))
        · exact Or.inl h2
      · exact Or.inr h1

/-- Bookkeeping of the BFS neighbour fold: each enqueue marks exactly one
new vertex, so marked-count plus old queue length equals old marked-count
plus new queue length. -/
lemma foldl_passoVizinho_conta :
    ∀ (l fila : List Nat) (vis : List Bool),
      (∀ a ∈ l, a < vis.length) →
      ((l.foldl passoVizinho (fila, vis)).2).count true + fila.length
        = vis.count true + ((l.foldl passoVizinho (fila, vis)).1).length := by
  intro l
  induction l with
  | nil => intro fila vis _; rfl
  | cons a t iht =>
    intro fila vis hl
    rw [List.foldl_cons, passoVizinho_eq]
    by_cases ha : vis.getD a false = true
    · rw [if_pos ha]
      exact iht fila vis (fun c hc => hl c (List.mem_cons_of_mem _ hc))
    · rw [if_neg ha]
      have hva : vis.getD a false = false := by
        cases hx : vis.getD a false
        · rfl
        · exact absurd hx ha
      have hcount : (vis.set a true).count true = vis.count true + 1 :=
        count_true_set_true vis (hl a (List.mem_cons_self _ _)) hva
      have h1 := iht (fila ++ [a]) (vis.set a true) (fun c hc => by
        rw [List.length_set]; exact hl c (List.mem_cons_of_mem _ hc))
      rw [List.length_append] at h1
      have hone : ([a] : List Nat).length = 1 := rfl
      rw [hone] at h1
      omega

/-- Successor equation of the BFS queue loop on a non-empty queue. -/
lemma procura_largura_loop_succ (g : Grafo) (fuel atual : Nat)
    (resto : List Nat) (visitado : List Bool) :
    procura_largura_loop g (fuel + 1) (atual :: resto) visitado
      = (atual :: (procura_largura_loop g fuel
            (procura_largura_vizinhos g atual resto visitado).1
            (procura_largura_vizinhos g atual resto visitado).2).1,
         (procura_largura_loop g fuel
            (procura_largura_vizinhos g atual resto visitado).1
            (procura_largura_vizinhos g atual resto visitado).2).2) := rfl

/-- The BFS loop preserves marker-list length. -/
lemma procura_largura_loop_length (g : Grafo) :
    ∀ (fuel : Nat) (fila : List Nat) (vis : List Bool),
      ((procura_largura_loop g fuel fila vis).2).length = vis.length := by
  intro fuel
  induction fuel with
  | zero => intro fila vis; rfl
  | succ fuel ih =>
    intro fila vis
    cases fila with
    | nil => rfl
    | cons atual resto =>
      rw [procura_largura_loop_succ]
      exact (ih _ _).trans (foldl_passoVizinho_length (arestasDe g atual) resto vis)

/-- The BFS loop never unmarks a vertex. -/
lemma procura_largura_loop_mono (g : Grafo) :
    ∀ (fuel : Nat) (fila : List Nat) (vis : List Bool) (w : Nat),
      vis.getD w false = true →
      ((procura_largura_loop g fuel fila vis).2).getD w false = true := by
  intro fuel
  induction fuel with
  | zero => intro fila vis w h; exact h
  | succ fuel ih =>
    intro fila vis w h
    cases fila with
    | nil => exact h
    | cons atual resto =>
      rw [procura_largura_loop_succ]
      exact ih _ _ w (foldl_passoVizinho_mono (arestasDe g atual) resto vis w h)

/-- Soundness of the BFS loop: with every queued vertex and every marked
vertex reachable from `s`, every vertex marked at the end is reachable
from `s`. -/
lemma procura_largura_loop_sound (g : Grafo) (s : Nat) :
    ∀ (fuel : Nat) (fila : List Nat) (vis : List Bool),
      (∀ q ∈ fila, Alcancavel g s q) →
      (∀ w, vis.getD w false = true → Alcancavel g s w) →
      ∀ w, ((procura_largura_loop g fuel fila vis).2).getD w false = true →
        Alcancavel g s w := by
  intro fuel
  induction fuel with
  | zero => intro fila vis _ hV w hw; exact hV w hw
  | succ fuel ih =>
    intro fila vis hQ hV w hw
    cases fila with
    | nil => exact hV w hw
    | cons atual resto =>
      rw [procura_largura_loop_succ] at hw
      refine ih _ _ ?_ ?_ w hw
      · intro q hq
        rcases foldl_passoVizinho_fila_origem (arestasDe g atual) resto vis q hq
          with h1 | h1
        · exact hQ q (List.mem_cons_of_mem _ h1)
        · exact Relation.ReflTransGen.tail (hQ atual (List.mem_cons_self _ _)) h1
      · intro u hu
        rcases foldl_passoVizinho_marcado_origem (arestasDe g atual) resto vis u hu
          with h1 | h1
        · exact hV u h1
        · exact Relation.ReflTransGen.tail (hQ atual (List.mem_cons_self _ _)) h1

/-- Closure of the BFS loop with enough fuel: starting from a queue whose
members are marked and a marker state closed except at the queue, every
vertex marked at the end has all its neighbours marked at the end. -/
lemma procura_largura_loop_fechado (g : Grafo) (hwf : bemFormado g) :
    ∀ (fuel : Nat) (fila : List Nat) (vis : List Bool),
      vis.length = g.vertices.length →
      (∀ q ∈ fila, vis.getD q false = true) →
      (∀ w, vis.getD w false = true →
        w ∈ fila ∨ ∀ a ∈ arestasDe g w, vis.getD a false = true) →
      fila.length + g.vertices.length < fuel + vis.count true →
      ∀ w, ((procura_largura_loop g fuel fila vis).2).getD w false = true →
        ∀ a ∈ arestasDe g w,
          ((procura_largura_loop g fuel fila vis).2).getD a false = true := by
  intro fuel
  induction fuel with
  | zero =>
    intro fila vis hlen _ _ hfuel
    have hc := List.count_le_length true vis
    exact absurd hfuel (by omega)
  | succ fuel ih =>
    intro fila vis hlen hQ hI hfuel
    cases fila with
    | nil =>
      intro w hw a ha
      rcases hI w hw with h1 | h1
      · simp at h1
      · exact h1 a ha
    | cons atual resto =>
      rw [procura_largura_loop_succ]
      have hbound : ∀ a ∈ arestasDe g atual, a < vis.length := by
        intro a ha
        rw [hlen]
        exact bemFormado_arestas g hwf atual a ha
      refine ih _ _ ?_ ?_ ?_ ?_
      · exact (foldl_passoVizinho_length (arestasDe g atual) resto vis).trans hlen
      · exact foldl_passoVizinho_fila_marcada (arestasDe g atual) resto vis hbound
          (fun q hq => hQ q (List.mem_cons_of_mem _ hq))
      · intro w hw
        rcases foldl_passoVizinho_novo_na_fila (arestasDe g atual) resto vis w hw
          with h1 | h1
        · rcases hI w h1 with h2 | h2
          · rcases List.mem_cons.mp h2 with hwa | h3
            · subst hwa
              refine Or.inr (fun a ha => ?_)
              exact foldl_passoVizinho_marca_todos (arestasDe g w) resto vis
                hbound a ha
            · exact Or.inl
                (foldl_passoVizinho_fila_preserva (arestasDe g atual) resto vis w h3)
          · exact Or.inr (fun a ha =>
              foldl_passoVizinho_mono (arestasDe g atual) resto vis a (h2 a ha))
        · exact Or.inl h1
      · have hviz : procura_largura_vizinhos g atual resto vis
            = (arestasDe g atual).foldl passoVizinho (resto, vis) := rfl
        rw [hviz]
        have hconta := foldl_passoVizinho_conta (arestasDe g atual) resto vis hbound
        have hlc : (atual :: resto).length = resto.length + 1 := rfl
        omega

/-- Characterisation of BFS on a well-formed graph from an all-false marker
state: the final markers are exactly the vertices reachable from the
start. -/
lemma procura_largura_alcanca (g : Grafo) (hwf : bemFormado g)
    (v : Nat) (hv : v < g.vertices.length) (vis : List Bool)
    (hlen : vis.length = g.vertices.length)
    (hfalse : ∀ k, vis.getD k false = false) (w : Nat) :
    ((procura_largura_loop g (g.vertices.length + 1) [v]
        (vis.set v true)).2).getD w false = true
      ↔ Alcancavel g v w := by
  have hv' : v < vis.length := by omega
  have hmark : (vis.set v true).getD v false = true := getD_set_self vis true false hv'
  have hcount : (vis.set v true).count true = vis.count true + 1 :=
    count_true_set_true vis hv' (hfalse v)
  have hzero : vis.count true = 0 := count_true_eq_zero vis hfalse
  constructor
  · intro h
    refine procura_largura_loop_sound g v _ [v] (vis.set v true) ?_ ?_ w h
    · intro q hq
      rw [List.mem_singleton.mp hq]
      exact Relation.ReflTransGen.refl
    · intro u hu
      rcases marcado_set_cases vis v u hu with rfl | h2
      · exact Relation.ReflTransGen.refl
      · rw [hfalse u] at h2
        exact absurd h2 (by decide)
  · intro h
    have hlen1 : (vis.set v true).length = g.vertices.length := by
      rw [List.length_set]
      exact hlen
    have hQ : ∀ q ∈ [v], (vis.set v true).getD q false = true := by
      intro q hq
      rw [List.mem_singleton.mp hq]
      exact hmark
    have hI : ∀ u, (vis.set v true).getD u false = true →
        u ∈ [v] ∨ ∀ a ∈ arestasDe g u, (vis.set v true).getD a false = true := by
      intro u hu
      rcases marcado_set_cases vis v u hu with rfl | h2
      · exact Or.inl (List.mem_singleton.mpr rfl)
      · rw [hfalse u] at h2
        exact absurd h2 (by decide)
    have hfuel : ([v] : List Nat).length + g.vertices.length
        < (g.vertices.length + 1) + (vis.set v true).count true := by
      have hone : ([v] : List Nat).length = 1 := rfl
      omega
    induction h with
    | refl => exact procura_largura_loop_mono g _ _ _ v hmark
    | tail hab hbc ihh =>
      exact procura_largura_loop_fechado g hwf _ _ _ hlen1 hQ hI hfuel _
        ihh _ hbc

/-- **C7**: on a well-formed graph, DFS and BFS started from the same
vertex present in the graph leave identical visited-marker states: they
visit exactly the same set of vertices (those reachable from the start),
though possibly in different orders. -/
theorem procura_profundidade_largura_mesmo_conjunto (g : Grafo)
    (hwf : bemFormado g) (v : Nat) (hv : v < g.vertices.length) :
    (procura_profundidade g (some v)).2.visitado
      = (procura_largura g (some v)).2.visitado := by
  have hwf1 : bemFormado (reiniciar_visitados g) := bemFormado_reiniciar g hwf
  have hv1 : v < (reiniciar_visitados g).vertices.length := hv
  have hlen1 : (reiniciar_visitados g).visitado.length
      = (reiniciar_visitados g).vertices.length := hwf1.2.1
  have hfalse1 : ∀ k, (reiniciar_visitados g).visitado.getD k false = false :=
    fun k => getD_map_false _ k
  have hD : (procura_profundidade g (some v)).2.visitado
      = (procura_profundidade_rec (reiniciar_visitados g)
          ((reiniciar_visitados g).vertices.length + 1) v
          (reiniciar_visitados g).visitado).2 := rfl
  have hB : (procura_largura g (some v)).2.visitado
      = (procura_largura_loop (reiniciar_visitados g)
          ((reiniciar_visitados g).vertices.length + 1) [v]
          ((reiniciar_visitados g).visitado.set v true)).2 := rfl
  rw [hD, hB]
  apply eq_of_getD_eq
  · rw [procura_profundidade_rec_length, procura_largura_loop_length,
      List.length_set]
  · intro k
    apply bool_eq_of_iff
    rw [procura_profundidade_alcanca (reiniciar_visitados g) hwf1 v hv1
        (reiniciar_visitados g).visitado hlen1 hfalse1 k,
      procura_largura_alcanca (reiniciar_visitados g) hwf1 v hv1
        (reiniciar_visitados g).visitado hlen1 hfalse1 k]

/-- Witness for C7 on the well-formed sample graph, starting from vertex
`1`. -/
theorem procura_profundidade_largura_mesmo_conjunto_witness :
    bemFormado grafoExemplo ∧ 1 < grafoExemplo.vertices.length ∧
    (procura_profundidade grafoExemplo (some 1)).2.visitado
      = (procura_largura grafoExemplo (some 1)).2.visitado :=
  ⟨by decide, by decide,
   procura_profundidade_largura_mesmo_conjunto grafoExemplo (by decide) 1 (by decide)⟩

end TPEDA
